import Mathlib

/-!
# PeakInvestigator SDK: the tar archive writer and reader

A shallow embedding of `src/PeakInvestigator/TarFile.cpp`.

* Bytes are natural numbers below 256; byte strings (`std::string`, `char` buffers,
  the uncompressed gzip stream) are `List Nat`.
* The gzip transport is its uncompressed byte stream: a handle opened for reading holds
  the bytes not read yet, a handle opened for writing holds the bytes written so far.
* The two copy loops and the padding loop are run with fuel; a run whose fuel is used up
  while the loop condition still holds is reported as `Outcome.hang`.
* `std::time(NULL)` is an argument (`now`) of the writing functions.
-/

namespace PeakInvestigator

/-! ## Constants and the header layout -/

/-- The chunk size of the two copy loops (`#define BUFFER_SIZE 32768`). -/
def BUFFER_SIZE : Nat := 32768

/-- Modelled from the spec: `sizeof(Tar::PosixTarHeader)`; `tarball.h` is not among the
sources, the spec fixes every header block at 512 bytes. -/
def TARHEADER_SIZE : Nat := 512

/-- Modelled from the spec: offset of `PosixTarHeader::name` (100 bytes); the struct
declaration is in `tarball.h`, which is not among the sources. -/
def NAME_OFFSET : Nat := 0

/-- Modelled from the spec: offset of `PosixTarHeader::mode` (8 bytes, after the name). -/
def MODE_OFFSET : Nat := 100

/-- Modelled from the spec: offset of `PosixTarHeader::size` (12 bytes; the legacy layout
has the 8-byte owner and group ids between the mode and the size). -/
def SIZE_OFFSET : Nat := 124

/-- Modelled from the spec: offset of `PosixTarHeader::mtime` (12 bytes). -/
def MTIME_OFFSET : Nat := 136

/-- Modelled from the spec: offset of `PosixTarHeader::checksum` (8 bytes). -/
def CHECKSUM_OFFSET : Nat := 148

/-- Modelled from the spec: offset of `PosixTarHeader::typeflag` (1 byte). -/
def TYPEFLAG_OFFSET : Nat := 156

/-- Modelled from the spec: offset of `PosixTarHeader::magic` (6 bytes; the legacy layout
has the 100-byte link name between the type flag and the magic). -/
def MAGIC_OFFSET : Nat := 257

/-- Modelled from the spec: offset of `PosixTarHeader::version` (2 bytes). -/
def VERSION_OFFSET : Nat := 263

/-! ## Outcomes -/

/-- How a call ends. -/
inductive Outcome (α : Type) where
  /-- the call returns -/
  | ok (value : α)
  /-- the call throws `std::runtime_error` -/
  | runtime_error (what : String)
  /-- a loop of the call is still running when the fuel is used up -/
  | hang
  /-- the call reads an uninitialised variable or overruns a buffer -/
  | undefined
deriving DecidableEq, Repr

/-! ## C library: strings, `sprintf`, `sscanf` -/

/-- The bytes of an ASCII string literal. -/
def ascii (s : String) : List Nat := s.data.map Char.toNat

/-- The C string that starts at the front of `s`: the bytes before the first NUL. -/
def cstr (s : List Nat) : List Nat := s.takeWhile (fun b => b != 0)

/-- Store `src` into `buf` from offset `off` on (`memcpy` into the header object). Bytes
that would land behind the end of `buf` leave the object and are not tracked. -/
def poke (buf : List Nat) (off : Nat) (src : List Nat) : List Nat :=
  buf.take off ++ src.take (buf.length - off) ++ buf.drop (off + src.length)

/-- The `w` low-order octal digits of `n` as ASCII, most significant first. -/
def octFixed : Nat → Nat → List Nat
  | 0, _ => []
  | w + 1, n => octFixed w (n / 8) ++ [48 + n % 8]

/-- The number of octal digits of `n` (at least one), for `n` below `8 ^ fuel`. -/
def octLen : Nat → Nat → Nat
  | 0, _ => 0
  | fuel + 1, n => if n < 8 then 1 else 1 + octLen fuel (n / 8)

/-- The text `printf` produces for `%0<w>o`, `%0<w>lo` and `%0<w>llo` from an unsigned
value of `bits` bits: octal, zero-padded to at least `w` digits, never truncated. -/
def printfOctal (bits w n : Nat) : List Nat :=
  octFixed (max w (octLen 22 (n % 2 ^ bits))) (n % 2 ^ bits)

/-- `sprintf(dst, "%s", s)` and friends: the text and its terminating NUL. -/
def sprintf (buf : List Nat) (off : Nat) (text : List Nat) : List Nat :=
  poke buf off (text ++ [0])

/-- `isspace` in the C locale. -/
def isspace (c : Nat) : Bool := c == 32 || (9 ≤ c && c ≤ 13)

/-- An octal digit character. -/
def isOctDigit (c : Nat) : Bool := 48 ≤ c && c ≤ 55

/-- The value of a run of octal digit characters. -/
def octValue (ds : List Nat) : Nat := ds.foldl (fun acc d => 8 * acc + (d - 48)) 0

/-- The longest run of at most `w` octal digits at the front of `s`; no digit is a
matching failure. -/
def scanOctal (w : Nat) (s : List Nat) : Option Nat :=
  let ds := (s.take w).takeWhile isOctDigit
  if ds = [] then none else some (octValue ds)

/-- `sscanf(s, "%0<w>llo", &v)`: white space is skipped, then an optional sign and octal
digits, at most `w` characters in all. `none` is a matching failure: `v` is not written. -/
def sscanfOctal (w : Nat) (s : List Nat) : Option Int :=
  let t := s.dropWhile isspace
  if t.head? = some 45 then (scanOctal (w - 1) t.tail).map (fun v => -(v : Int))
  else if t.head? = some 43 then (scanOctal (w - 1) t.tail).map (fun v => (v : Int))
  else (scanOctal w t).map (fun v => (v : Int))

/-! ## zlib: the gzip handle -/

/-- A `gzFile`, seen through its uncompressed byte stream. -/
inductive GzFile where
  /-- opened with `"rb"`: the bytes not read yet -/
  | rb (unread : List Nat)
  /-- opened with `"wb"`: the bytes written so far, and how many more the device takes
  (`none`: no limit) -/
  | wb (written : List Nat) (room : Option Nat)
  /-- a write handle after a failed write; zlib keeps the error until the handle is closed -/
  | err (written : List Nat)
deriving DecidableEq, Repr

/-- `gzwrite(file, buf, len)`: the new handle and the return value, the number of bytes
written, 0 on failure. -/
def gzwrite (file : GzFile) (buf : List Nat) : GzFile × Nat :=
  match file with
  | .wb written none => (.wb (written ++ buf) none, buf.length)
  | .wb written (some room) =>
    if buf.length ≤ room then (.wb (written ++ buf) (some (room - buf.length)), buf.length)
    else (.err written, 0)
  | .rb unread => (.rb unread, 0)
  | .err written => (.err written, 0)

/-- `gzputc(file, c)`; the return value is not used by the callers. -/
def gzputc (file : GzFile) (c : Nat) : GzFile := (gzwrite file [c]).1

/-- `gzread(file, buf, len)`: the new handle, the bytes stored into `buf` and the return
value, their number, -1 on a handle that is not open for reading. -/
def gzread (file : GzFile) (len : Nat) : GzFile × List Nat × Int :=
  match file with
  | .rb unread => (.rb (unread.drop len), unread.take len, ((unread.take len).length : Int))
  | .wb written room => (.wb written room, [], -1)
  | .err written => (.err written, [], -1)

/-- `gzclose(file) == Z_OK`. -/
def gzclose (file : GzFile) : Bool :=
  match file with
  | .err _ => false
  | _ => true

/-- The value an `int` has after conversion to `unsigned int`. -/
def toUnsigned (i : Int) : Nat := (i % 2 ^ 32).toNat

/-! ## The content source (`std::istream`) -/

/-- The input stream handed to `writeFile`. -/
structure IStream where
  /-- the bytes from the get position to the end of the stream -/
  rest : List Nat
  /-- `some k`: the device below the stream breaks (`badbit`) once `read` has delivered
  `k` more bytes; `none`: it never breaks -/
  fault : Option Nat
deriving DecidableEq, Repr

/-- What one `contents.read(buffer, n)` leaves behind. -/
structure ReadState where
  /-- the stream afterwards -/
  stream : IStream
  /-- the bytes stored into the buffer; their number is `gcount()` -/
  chunk : List Nat
  /-- `fail()` -/
  fail : Bool
  /-- `eof()` -/
  eof : Bool
deriving DecidableEq, Repr

/-- `contents.read(buffer, n)`. On a healthy stream it delivers `n` bytes, or what is left
and then sets `eofbit` and `failbit`. -/
def IStream.read (s : IStream) (n : Nat) : ReadState :=
  match s.fault with
  | some k =>
    if k < n ∧ k < s.rest.length then
      { stream := { rest := s.rest.drop k, fault := some 0 }, chunk := s.rest.take k,
        fail := true, eof := false }
    else
      { stream := { rest := s.rest.drop n, fault := some (k - (s.rest.take n).length) },
        chunk := s.rest.take n,
        fail := decide ((s.rest.take n).length < n), eof := decide ((s.rest.take n).length < n) }
  | none =>
    { stream := { rest := s.rest.drop n, fault := none }, chunk := s.rest.take n,
      fail := decide ((s.rest.take n).length < n), eof := decide ((s.rest.take n).length < n) }

/-- The size `writeFile` measures with `tellg`, `ignore`, `gcount`, `clear` and `seekg`:
the number of bytes between the get position and the end; the position is restored. -/
def IStream.measure (s : IStream) : Nat := s.rest.length

/-! ## `Tar::headerChecksum` -/

/-- Modelled from the spec: `Tar::headerChecksum` of `tarball.h`, which is not among the
sources. The sum of the unsigned value of every byte of the block, with an ASCII space
substituted for each byte of the checksum field. -/
def headerChecksum (header : List Nat) : Nat :=
  (poke header CHECKSUM_OFFSET (List.replicate 8 32)).sum

/-! ## `TarFile` -/

/-- `TarFile::Mode`. -/
inductive Mode where
  | LOAD
  | SAVE
deriving DecidableEq, Repr

/-- The members of a `TarFile` (the file name, used in messages only, and the logger are
left out). -/
structure TarFile where
  file_ : GzFile
  mode_ : Mode
  isOpen_ : Bool
deriving DecidableEq, Repr

/-- `TarFile::TarFile(filename, mode)` on a file that `gzopen` can open: `LOAD` reads the
uncompressed bytes `disk` of the file, `SAVE` starts an empty file on a device that takes
`room` bytes. -/
def TarFile.open (mode : Mode) (disk : List Nat) (room : Option Nat) : TarFile :=
  match mode with
  | .LOAD => { file_ := .rb disk, mode_ := .LOAD, isOpen_ := true }
  | .SAVE => { file_ := .wb [] room, mode_ := .SAVE, isOpen_ := true }

/-- The uncompressed bytes a write handle has produced. -/
def GzFile.written : GzFile → List Nat
  | .rb _ => []
  | .wb written _ => written
  | .err written => written

/-- The uncompressed bytes the archive has written to its transport. -/
def TarFile.written (tf : TarFile) : List Nat := tf.file_.written

/-- `TarFile::close`. -/
def TarFile.close (tf : TarFile) : TarFile × Outcome Unit :=
  let file1 :=
    if tf.mode_ = Mode.SAVE then
      let header := List.replicate TARHEADER_SIZE 0
      (gzwrite (gzwrite tf.file_ header).1 header).1
    else tf.file_
  if gzclose file1 then
    ({ tf with file_ := file1, isOpen_ := false }, .ok ())
  else
    ({ tf with file_ := file1 }, .runtime_error "Unable to close tarfile: ")

/-- The header object of `writeHeader_` when every field but the checksum is set. -/
def headerFields (filename : List Nat) (size now : Nat) : List Nat :=
  let header := List.replicate TARHEADER_SIZE 0
  let header := sprintf header NAME_OFFSET (cstr filename)
  let header := sprintf header MAGIC_OFFSET (ascii "ustar")
  let header := poke header VERSION_OFFSET (ascii "  ")
  let header := sprintf header MTIME_OFFSET (printfOctal 64 11 now)
  let header := sprintf header MODE_OFFSET (printfOctal 32 7 420)
  let header := poke header TYPEFLAG_OFFSET [0]
  sprintf header SIZE_OFFSET (printfOctal 64 11 size)

/-- The header object of `writeHeader_` as it stands when it is handed to `gzwrite`, for a
`Tar::headerChecksum` that leaves the header as it is (`headerBlockSpaced` has the header
for one that fills the checksum field; the two differ in the byte at offset 155 only). -/
def headerBlock (filename : List Nat) (size now : Nat) : List Nat :=
  let header := headerFields filename size now
  sprintf header CHECKSUM_OFFSET (printfOctal 32 6 (headerChecksum header))

/-- `TarFile::writeHeader_`. -/
def TarFile.writeHeader_ (tf : TarFile) (filename : List Nat) (size now : Nat) :
    TarFile × Outcome Unit :=
  let w := gzwrite tf.file_ (headerBlock filename size now)
  if w.2 ≠ TARHEADER_SIZE then
    ({ tf with file_ := w.1 }, .runtime_error "Problem writing tarball header for: ")
  else
    ({ tf with file_ := w.1 }, .ok ())

/-- The copy loop of `writeFile` (`while(total < size)`); `ok total` is the counter with
which the loop is left, by its condition or by `break`. -/
def copyLoop : Nat → GzFile → IStream → Nat → Nat → GzFile × IStream × Outcome Nat
  | fuel, file, contents, size, total =>
    if total < size then
      match fuel with
      | 0 => (file, contents, .hang)
      | fuel + 1 =>
        let r := contents.read BUFFER_SIZE
        if r.fail && !r.eof then (file, r.stream, .ok total)
        else
          let w := gzwrite file r.chunk
          if r.chunk.length ≠ w.2 then
            (w.1, r.stream, .runtime_error "Problem writing data for ")
          else copyLoop fuel w.1 r.stream size ((total + w.2) % 2 ^ 32)
    else (file, contents, .ok total)

/-- The padding loop of `writeFile` (`while(total % TARHEADER_SIZE != 0)`); `none` when
the fuel is used up. -/
def padLoop : Nat → GzFile → Nat → Option GzFile
  | fuel, file, total =>
    if total % TARHEADER_SIZE ≠ 0 then
      match fuel with
      | 0 => none
      | fuel + 1 => padLoop fuel (gzputc file 0) ((total + 1) % 2 ^ 32)
    else some file

/-- `TarFile::writeFile`. -/
def TarFile.writeFile (fuel : Nat) (tf : TarFile) (filename : List Nat) (contents : IStream)
    (now : Nat) : TarFile × IStream × Outcome Unit :=
  let size := contents.measure
  match tf.writeHeader_ filename size now with
  | (tf1, .ok _) =>
    match copyLoop fuel tf1.file_ contents size 0 with
    | (file2, contents2, .ok total) =>
      if total ≠ size then
        ({ tf1 with file_ := file2 }, contents2,
          .runtime_error "Number of total bytes written != size.")
      else
        match padLoop fuel file2 total with
        | some file3 => ({ tf1 with file_ := file3 }, contents2, .ok ())
        | none => ({ tf1 with file_ := file2 }, contents2, .hang)
    | (file2, contents2, .runtime_error what) =>
      ({ tf1 with file_ := file2 }, contents2, .runtime_error what)
    | (file2, contents2, .hang) => ({ tf1 with file_ := file2 }, contents2, .hang)
    | (file2, contents2, .undefined) => ({ tf1 with file_ := file2 }, contents2, .undefined)
  | (tf1, .runtime_error what) => (tf1, contents, .runtime_error what)
  | (tf1, .hang) => (tf1, contents, .hang)
  | (tf1, .undefined) => (tf1, contents, .undefined)

/-- The chunk loop of `readNextFile` (`while(size > BUFFER_SIZE)`): the handle, the sink
and the remaining size with which the loop is left; `none` when the fuel is used up. -/
def readLoop : Nat → GzFile → List Nat → Int → Option (GzFile × List Nat × Int)
  | fuel, file, contents, size =>
    if size > BUFFER_SIZE then
      match fuel with
      | 0 => none
      | fuel + 1 =>
        let r := gzread file BUFFER_SIZE
        readLoop fuel r.1 (contents ++ r.2.1) (size - toUnsigned r.2.2)
    else some (file, contents, size)

/-- `TarFile::readNextFile`; `contents` is what the sink holds, the result carries what it
holds afterwards. -/
def TarFile.readNextFile (fuel : Nat) (tf : TarFile) (contents : List Nat) :
    TarFile × List Nat × Outcome (List Nat) :=
  let h := gzread tf.file_ TARHEADER_SIZE
  let tf1 := { tf with file_ := h.1 }
  let header := h.2.1
  let read := toUnsigned h.2.2
  if read = 0 then (tf1, contents, .ok [])
  else if read ≠ TARHEADER_SIZE then
    (tf1, contents, .runtime_error "Problem reading a tar header of ")
  else if header.head? = some 0 then (tf1, contents, .ok [])
  else
    match sscanfOctal 11 (header.drop SIZE_OFFSET) with
    | none => (tf1, contents, .undefined)
    | some size =>
      if size = 0 then (tf1, contents, .ok (cstr header))
      else if size < 0 then (tf1, contents, .undefined)
      else
        match readLoop fuel tf1.file_ contents size with
        | none => (tf1, contents, .hang)
        | some (file2, contents2, size2) =>
          let r := gzread file2 size2.toNat
          let contents3 := contents2 ++ r.2.1
          let bytes_over := size2.toNat % TARHEADER_SIZE
          let file4 :=
            if bytes_over > 0 then (gzread r.1 (TARHEADER_SIZE - bytes_over)).1 else r.1
          ({ tf1 with file_ := file4 }, contents3, .ok (cstr header))

/-! ## Sequences of calls -/

/-- One entry handed to `writeFile`: its name, its content and the clock at the call. -/
structure Entry where
  name : List Nat
  content : List Nat
  now : Nat
deriving DecidableEq, Repr

/-- `writeFile` for each entry in order, on healthy streams; stops at the first call that
does not return. -/
def writeFiles (fuel : Nat) : TarFile → List Entry → TarFile × Outcome Unit
  | tf, [] => (tf, .ok ())
  | tf, e :: es =>
    match tf.writeFile fuel e.name { rest := e.content, fault := none } e.now with
    | (tf1, _, .ok _) => writeFiles fuel tf1 es
    | (tf1, _, other) => (tf1, other)

/-- The given number of `readNextFile` calls in a row, each with an empty sink: what each
call returns and what it leaves in its sink. -/
def readFiles (fuel : Nat) : Nat → TarFile → List (Outcome (List Nat) × List Nat)
  | 0, _ => []
  | n + 1, tf =>
    let r := tf.readNextFile fuel []
    (r.2.2, r.2.1) :: readFiles fuel n r.1

/-- Reopen for reading what a closed write-mode archive has produced. -/
def TarFile.reopen (tf : TarFile) : TarFile := TarFile.open Mode.LOAD tf.written none

/-! ## Notions used in the statements -/

/-- The `b` bytes of `buf` from offset `a` on. -/
def slice (buf : List Nat) (a b : Nat) : List Nat := (buf.drop a).take b

/-- The number of bytes that bring a content of `size` bytes up to the next multiple of the
block size. -/
def padding (size : Nat) : Nat := (512 - size % 512) % 512

/-- The bytes one entry takes in an archive: header block, content, zero padding. -/
def entryBytes (e : Entry) : List Nat :=
  headerBlock e.name e.content.length e.now ++ e.content ++
    List.replicate (padding e.content.length) 0

/-- The bytes a sequence of entries takes in an archive, before the end marker. -/
def archiveBytes : List Entry → List Nat
  | [] => []
  | e :: es => entryBytes e ++ archiveBytes es

/-- A name that fits the name field with its terminator and survives as a C string. -/
def validName (name : List Nat) : Prop := name ≠ [] ∧ 0 ∉ name ∧ name.length ≤ 99

instance (name : List Nat) : Decidable (validName name) := by
  unfold validName
  infer_instance

/-- The scenario of the spec: `a.txt` holding `hello`, then `b.bin` holding 1000 zero
bytes. -/
def scenario : List Entry :=
  [{ name := ascii "a.txt", content := ascii "hello", now := 1469000000 },
   { name := ascii "b.bin", content := List.replicate 1000 0, now := 1469000000 }]

/-! ## `InitAction.cpp`: the estimated costs

A `double` is modelled by a rational number: the finite values, which are all that a JSON
number denotes; only their order is used. A `std::map` with string keys is the list of its
entries in iteration order, ascending by key. -/

/-- The exceptions thrown in `InitAction.cpp`. -/
inductive Exn where
  | runtime_error (what : String)
  | invalid_argument (what : String)
deriving DecidableEq, Repr

deriving instance DecidableEq for Except

/-- A `std::map<std::string, V>`. -/
abbrev StdMap (V : Type) := List (String × V)

/-- `std::map::find`: the value stored under `key`, `none` for `end()`. -/
def StdMap.find {V : Type} : StdMap V → String → Option V
  | [], _ => none
  | (k, v) :: rest, key => if key = k then some v else StdMap.find rest key

/-- The assignment `m[key] = value`: the entry is replaced or inserted in key order. -/
def StdMap.assign {V : Type} : StdMap V → String → V → StdMap V
  | [], key, value => [(key, value)]
  | (k, v) :: rest, key, value =>
    if key < k then (key, value) :: (k, v) :: rest
    else if key = k then (key, value) :: rest
    else (k, v) :: StdMap.assign rest key value

/-- The keys of a map in iteration order. -/
def StdMap.keys {V : Type} (m : StdMap V) : List String := m.map Prod.fst

/-- `class ResponseTimeCosts : public std::map<std::string, double>`. -/
abbrev ResponseTimeCosts := StdMap ℚ

/-- `class EstimatedCosts : public std::map<std::string, ResponseTimeCosts>`. -/
abbrev EstimatedCosts := StdMap ResponseTimeCosts

/-- `ResponseTimeCosts::getRTOs`. -/
def ResponseTimeCosts.getRTOs (costs : ResponseTimeCosts) : List String := StdMap.keys costs

/-- `ResponseTimeCosts::getCost`. -/
def ResponseTimeCosts.getCost (costs : ResponseTimeCosts) (responseTimeObjective : String) :
    Except Exn ℚ :=
  match StdMap.find costs responseTimeObjective with
  | none =>
    .error (.invalid_argument ("The following RTO was not found: " ++ responseTimeObjective))
  | some cost => .ok cost

/-- `EstimatedCosts::getInstruments`. -/
def EstimatedCosts.getInstruments (ec : EstimatedCosts) : List String := StdMap.keys ec

/-- `std::max(a, b)`. -/
def stdMax (a b : ℚ) : ℚ := if a < b then b else a

/-- The loop of `EstimatedCosts::getMaximumCost` over the entries from `iter` on. -/
def EstimatedCosts.getMaximumCostLoop :
    List (String × ResponseTimeCosts) → String → ℚ → Except Exn ℚ
  | [], _, maxCost => .ok maxCost
  | (_, costs) :: rest, rto, maxCost =>
    match ResponseTimeCosts.getCost costs rto with
    | .error e => .error e
    | .ok cost => EstimatedCosts.getMaximumCostLoop rest rto (stdMax maxCost cost)

/-- `EstimatedCosts::getMaximumCost`. -/
def EstimatedCosts.getMaximumCost (ec : EstimatedCosts) (rto : String) : Except Exn ℚ :=
  EstimatedCosts.getMaximumCostLoop ec rto 0

/-- `EstimatedCosts::forInstrument`. -/
def EstimatedCosts.forInstrument (ec : EstimatedCosts) (instrument : String) :
    ResponseTimeCosts :=
  match StdMap.find ec instrument with
  | none => []
  | some costs => costs

/-- One element of the `"EstimatedCost"` array of a response, as far as `getEstimatedCosts`
looks at it: its members `Instrument`, `RTO` and `Cost`, `none` for a member that is not
there (jsoncpp is not part of the repository; members of another JSON type are left out). -/
structure CostElement where
  Instrument : Option String
  RTO : Option String
  Cost : Option ℚ
deriving DecidableEq, Repr

/-- `estimated_cost.get(key, Json::Value()).asString()`: the null default reads as the
empty string. -/
def asString (member : Option String) : String := member.getD ""

/-- `estimated_cost.get(key, Json::Value()).asDouble()`: the null default reads as 0.0. -/
def asDouble (member : Option ℚ) : ℚ := member.getD 0

/-- What `getEstimatedCosts` uses of an `InitAction`. `BaseAction` is not among the
sources: the answer of its `isReady("INIT")` and the array its
`getAttribute("EstimatedCost")` returns are taken as given. -/
structure InitAction where
  isReady : Bool
  EstimatedCost : List CostElement
  estimated_costs_ : EstimatedCosts
deriving DecidableEq, Repr

/-- `InitAction::preCheck`. -/
def InitAction.preCheck (action : InitAction) : Except Exn Unit :=
  if !action.isReady then .error (.runtime_error "Failed Pre-Check") else .ok ()

/-- The loop of `InitAction::getEstimatedCosts` over the elements from index `i` on. -/
def getEstimatedCostsLoop : List CostElement → EstimatedCosts → EstimatedCosts
  | [], estimated_costs_ => estimated_costs_
  | estimated_cost :: rest, estimated_costs_ =>
    let instrument := asString estimated_cost.Instrument
    let rto := asString estimated_cost.RTO
    let cost := asDouble estimated_cost.Cost
    let costs := EstimatedCosts.forInstrument estimated_costs_ instrument
    let costs := StdMap.assign costs rto cost
    getEstimatedCostsLoop rest (StdMap.assign estimated_costs_ instrument costs)

/-- `InitAction::getEstimatedCosts`: the action afterwards and what the call returns. -/
def InitAction.getEstimatedCosts (action : InitAction) :
    InitAction × Except Exn EstimatedCosts :=
  if action.estimated_costs_.length > 0 then (action, .ok action.estimated_costs_)
  else
    match action.preCheck with
    | .error e => (action, .error e)
    | .ok _ =>
      let estimated_costs_ := getEstimatedCostsLoop action.EstimatedCost action.estimated_costs_
      ({ action with estimated_costs_ := estimated_costs_ }, .ok estimated_costs_)

/-- The `"EstimatedCost"` array of `InitAction::EXAMPLE_RESPONSE`. -/
def EXAMPLE_RESPONSE : List CostElement :=
  [{ Instrument := some "TOF", RTO := some "RTO-24", Cost := some 27.60 },
   { Instrument := some "Orbitrap", RTO := some "RTO-24", Cost := some 36.22 },
   { Instrument := some "IonTrap", RTO := some "RTO-24", Cost := some 32.59 }]

/-- The cost of the last element of the array with the given instrument and RTO. -/
def lastCost (array : List CostElement) (instrument rto : String) : Option ℚ :=
  ((array.filter (fun e =>
      decide (asString e.Instrument = instrument ∧ asString e.RTO = rto))).getLast?).map
    (fun e => asDouble e.Cost)

/-! ## The checksum field when `Tar::headerChecksum` fills it -/

/-- Modelled from the spec: what `Tar::headerChecksum(&header)` leaves in the header it is
handed by pointer; `tarball.h` is not among the sources. Spec 4.1 has the checksum field
space-filled before the sum is taken, and spec 6 has a space as the last byte of the
field. -/
def headerChecksumFill (header : List Nat) : List Nat :=
  poke header CHECKSUM_OFFSET (List.replicate 8 32)

theorem poke_length (buf : List Nat) (off : Nat) (src : List Nat) :
    (poke buf off src).length = buf.length := by
  simp only [poke, List.length_append, List.length_take, List.length_drop]
  omega

theorem getElem?_poke (buf : List Nat) (off : Nat) (src : List Nat) (i : Nat) :
    (poke buf off src)[i]? =
      if off ≤ i ∧ i < off + src.length ∧ i < buf.length then src[i - off]? else buf[i]? := by
  unfold poke
  by_cases h1 : i < off
  · have : ¬ (off ≤ i ∧ i < off + src.length ∧ i < buf.length) := by omega
    rw [if_neg this, List.append_assoc]
    by_cases h2 : i < buf.length
    · rw [List.getElem?_append_left (by simp; omega), List.getElem?_take_of_lt h1]
    · rw [List.getElem?_eq_none (by simp; omega), List.getElem?_eq_none (by omega)]
  · by_cases h2 : i < buf.length
    · by_cases h3 : i < off + src.length
      · rw [if_pos ⟨by omega, h3, h2⟩, List.append_assoc,
          List.getElem?_append_right (by simp; omega),
          List.getElem?_append_left (by simp; omega),
          List.getElem?_take_of_lt (by simp; omega)]
        congr 1
        simp
        omega
      · have : ¬ (off ≤ i ∧ i < off + src.length ∧ i < buf.length) := by omega
        rw [if_neg this, List.getElem?_append_right (by simp; omega), List.getElem?_drop]
        congr 1
        simp
        omega
    · have : ¬ (off ≤ i ∧ i < off + src.length ∧ i < buf.length) := by omega
      rw [if_neg this, List.getElem?_eq_none (by simp; omega), List.getElem?_eq_none (by omega)]

theorem getElem?_slice (buf : List Nat) (a b i : Nat) :
    (slice buf a b)[i]? = if i < b then buf[a + i]? else none := by
  unfold slice
  simp only [List.getElem?_take, List.getElem?_drop]

theorem slice_length (buf : List Nat) (a b : Nat) (h : a + b ≤ buf.length) :
    (slice buf a b).length = b := by
  simp [slice]; omega

theorem slice_poke_same (buf : List Nat) (off : Nat) (src : List Nat)
    (h : off + src.length ≤ buf.length) :
    slice (poke buf off src) off src.length = src := by
  apply List.ext_getElem?
  intro i
  rw [getElem?_slice, getElem?_poke]
  by_cases hi : i < src.length
  · rw [if_pos hi, if_pos ⟨by omega, by omega, by omega⟩]
    congr 1
    omega
  · rw [if_neg hi, List.getElem?_eq_none (by omega)]

theorem slice_poke_before (buf : List Nat) (off : Nat) (src : List Nat) (a b : Nat)
    (h : a + b ≤ off) :
    slice (poke buf off src) a b = slice buf a b := by
  apply List.ext_getElem?
  intro i
  rw [getElem?_slice, getElem?_slice, getElem?_poke]
  by_cases hi : i < b
  · have : ¬ (off ≤ a + i ∧ a + i < off + src.length ∧ a + i < buf.length) := by omega
    simp only [if_pos hi, if_neg this]
  · simp only [if_neg hi]

theorem slice_poke_after (buf : List Nat) (off : Nat) (src : List Nat) (a b : Nat)
    (h : off + src.length ≤ a) :
    slice (poke buf off src) a b = slice buf a b := by
  apply List.ext_getElem?
  intro i
  rw [getElem?_slice, getElem?_slice, getElem?_poke]
  by_cases hi : i < b
  · have : ¬ (off ≤ a + i ∧ a + i < off + src.length ∧ a + i < buf.length) := by omega
    simp only [if_pos hi, if_neg this]
  · simp only [if_neg hi]

theorem slice_replicate (n a b x : Nat) (h : a + b ≤ n) :
    slice (List.replicate n x) a b = List.replicate b x := by
  apply List.ext_getElem?
  intro i
  rw [getElem?_slice, List.getElem?_replicate, List.getElem?_replicate]
  by_cases hi : i < b
  · rw [if_pos hi, if_pos hi, if_pos (by omega)]
  · rw [if_neg hi, if_neg hi]

theorem slice_add (buf : List Nat) (a b c : Nat) :
    slice buf a (b + c) = slice buf a b ++ slice buf (a + b) c := by
  unfold slice
  rw [List.take_add, List.drop_drop]

theorem slice_append_drop (buf : List Nat) (a b : Nat) :
    slice buf a b ++ buf.drop (a + b) = buf.drop a := by
  unfold slice
  rw [← List.drop_drop, List.take_append_drop]

theorem slice_zero_append_drop (buf : List Nat) (b : Nat) :
    slice buf 0 b ++ buf.drop b = buf := by
  simpa using slice_append_drop buf 0 b

/-! ## Helper lemmas: octal text -/

theorem octFixed_length (w n : Nat) : (octFixed w n).length = w := by
  induction w generalizing n with
  | zero => rfl
  | succ w ih => simp [octFixed, ih]

theorem octFixed_digit (w n d : Nat) (h : d ∈ octFixed w n) : 48 ≤ d ∧ d ≤ 55 := by
  induction w generalizing n with
  | zero => simp [octFixed] at h
  | succ w ih =>
    simp only [octFixed, List.mem_append, List.mem_singleton] at h
    rcases h with h | h
    · exact ih _ h
    · omega

theorem octFixed_isOctDigit (w n d : Nat) (h : d ∈ octFixed w n) : isOctDigit d = true := by
  have := octFixed_digit w n d h
  simp [isOctDigit, this.1, this.2]

theorem octValue_snoc (ds : List Nat) (d : Nat) :
    octValue (ds ++ [d]) = 8 * octValue ds + (d - 48) := by
  simp [octValue, List.foldl_append]

theorem octValue_octFixed (w n : Nat) : octValue (octFixed w n) = n % 8 ^ w := by
  induction w generalizing n with
  | zero => simp [octFixed, octValue, Nat.mod_one]
  | succ w ih =>
    rw [octFixed, octValue_snoc, ih, pow_succ, Nat.mul_comm (8 ^ w) 8, Nat.mod_mul]
    omega

theorem octLen_le (fuel w n : Nat) (hw : 1 ≤ w) (h : n < 8 ^ w) : octLen fuel n ≤ w := by
  induction fuel generalizing w n with
  | zero => simp [octLen]
  | succ f ih =>
    unfold octLen
    split_ifs with h8
    · exact hw
    · have hw2 : 2 ≤ w := by
        rcases Nat.lt_or_ge w 2 with hlt | hge
        · have : w = 1 := by omega
          subst this
          omega
        · exact hge
      have : n / 8 < 8 ^ (w - 1) := by
        rw [Nat.div_lt_iff_lt_mul (by norm_num), ← pow_succ]
        have : w - 1 + 1 = w := by omega
        rw [this]; exact h
      have := ih (w - 1) (n / 8) (by omega) this
      omega

theorem printfOctal_eq (bits w n : Nat) (hw : 1 ≤ w) (h : n < 8 ^ w) (hb : n < 2 ^ bits) :
    printfOctal bits w n = octFixed w n := by
  unfold printfOctal
  rw [Nat.mod_eq_of_lt hb, max_eq_left (octLen_le 22 w n hw h)]

theorem printfOctal_length_ge (bits w n : Nat) : w ≤ (printfOctal bits w n).length := by
  unfold printfOctal
  rw [octFixed_length]
  exact le_max_left _ _

theorem printfOctal_digit (bits w n d : Nat) (h : d ∈ printfOctal bits w n) : 48 ≤ d ∧ d ≤ 55 :=
  octFixed_digit _ _ d h

theorem sscanfOctal_digits (w : Nat) (ds rest : List Nat) (hlen : ds.length = w) (hw : 0 < w)
    (hd : ∀ d ∈ ds, 48 ≤ d ∧ d ≤ 55) :
    sscanfOctal w (ds ++ rest) = some (octValue ds : Int) := by
  obtain ⟨d, ds', rfl⟩ : ∃ d ds', ds = d :: ds' := by
    cases ds with
    | nil => simp at hlen; omega
    | cons d ds' => exact ⟨d, ds', rfl⟩
  have hd0 := hd d (by simp)
  have hsp : isspace d = false := by
    simp [isspace]; omega
  have htw : ((d :: ds' ++ rest).take w).takeWhile isOctDigit = d :: ds' := by
    rw [List.take_left' hlen]
    apply List.takeWhile_eq_self_iff.mpr
    intro x hx
    have := hd x hx
    simp [isOctDigit, this.1, this.2]
  unfold sscanfOctal
  have hdw : (d :: ds' ++ rest).dropWhile isspace = d :: ds' ++ rest := by
    simp [List.dropWhile, hsp]
  simp only [hdw]
  have h45 : (d :: ds' ++ rest).head? ≠ some 45 := by simp; omega
  have h43 : (d :: ds' ++ rest).head? ≠ some 43 := by simp; omega
  rw [if_neg h45, if_neg h43]
  unfold scanOctal
  simp only [htw]
  simp

/-! ## Helper lemmas: the header block -/

theorem headerBlock_length (filename : List Nat) (size now : Nat) :
    (headerBlock filename size now).length = 512 := by
  simp only [headerBlock, headerFields, sprintf, poke_length, List.length_replicate,
    TARHEADER_SIZE]

theorem headerBlock_name (filename : List Nat) (size now : Nat)
    (hlen : (cstr filename).length ≤ 99) :
    slice (headerBlock filename size now) 0 100 =
      cstr filename ++ 0 :: List.replicate (99 - (cstr filename).length) 0 := by
  unfold headerBlock headerFields sprintf
  simp only []
  rw [slice_poke_before _ _ _ _ _ (by decide), slice_poke_before _ _ _ _ _ (by decide),
    slice_poke_before _ _ _ _ _ (by decide), slice_poke_before _ _ _ _ _ (by decide),
    slice_poke_before _ _ _ _ _ (by decide), slice_poke_before _ _ _ _ _ (by decide),
    slice_poke_before _ _ _ _ _ (by decide)]
  have h100 : 100 = (cstr filename ++ [0]).length + (99 - (cstr filename).length) := by
    simp; omega
  have hfit : NAME_OFFSET + (cstr filename ++ [0]).length ≤
      (List.replicate TARHEADER_SIZE 0).length := by
    simp only [NAME_OFFSET, TARHEADER_SIZE, List.length_replicate, List.length_append,
      List.length_singleton]
    omega
  rw [h100, slice_add]
  have h1 := slice_poke_same (List.replicate TARHEADER_SIZE 0) NAME_OFFSET (cstr filename ++ [0]) hfit
  rw [NAME_OFFSET] at h1 ⊢
  rw [h1, slice_poke_after _ _ _ _ _ (by omega), slice_replicate _ _ _ _ (by
    simp only [TARHEADER_SIZE, List.length_append, List.length_singleton]; omega)]
  simp

theorem headerBlock_size (filename : List Nat) (size now : Nat) (hsize : size < 8 ^ 11) :
    slice (headerBlock filename size now) 124 12 = octFixed 11 size ++ [0] := by
  have htext : printfOctal 64 11 size = octFixed 11 size :=
    printfOctal_eq 64 11 size (by norm_num) hsize (by
      calc size < 8 ^ 11 := hsize
        _ ≤ 2 ^ 64 := by norm_num)
  unfold headerBlock headerFields sprintf
  simp only []
  rw [slice_poke_before _ _ _ _ _ (by decide), htext]
  have h12 : (octFixed 11 size ++ [0]).length = 12 := by simp [octFixed_length]
  have := slice_poke_same
    (poke (poke (poke (poke (poke (poke (List.replicate TARHEADER_SIZE 0) NAME_OFFSET
      (cstr filename ++ [0])) MAGIC_OFFSET (ascii "ustar" ++ [0])) VERSION_OFFSET (ascii "  "))
      MTIME_OFFSET (printfOctal 64 11 now ++ [0])) MODE_OFFSET (printfOctal 32 7 420 ++ [0]))
      TYPEFLAG_OFFSET [0]) SIZE_OFFSET (octFixed 11 size ++ [0]) (by
        simp only [poke_length, TARHEADER_SIZE, SIZE_OFFSET, octFixed_length,
          List.length_replicate, List.length_append, List.length_singleton]
        decide)
  rw [h12] at this
  exact this

theorem cstr_append_nul (s rest : List Nat) (h : 0 ∉ s) : cstr (s ++ 0 :: rest) = s := by
  unfold cstr
  rw [List.takeWhile_append_of_pos]
  · simp [List.takeWhile]
  · intro x hx
    have : x ≠ 0 := fun h0 => h (h0 ▸ hx)
    simpa using this

theorem cstr_eq_self (s : List Nat) (h : 0 ∉ s) : cstr s = s := by
  unfold cstr
  apply List.takeWhile_eq_self_iff.mpr
  intro x hx
  have : x ≠ 0 := fun h0 => h (h0 ▸ hx)
  simpa using this

theorem cstr_nul_free (s : List Nat) : 0 ∉ cstr s := by
  unfold cstr
  intro h
  have := List.mem_takeWhile_imp h
  simp at this

/-! ## Helper lemmas: the loops of `writeFile` -/

theorem copyLoop_healthy (fuel : Nat) (w rest : List Nat) (size total : Nat)
    (hinv : total + rest.length = size) (hsize : size < 2 ^ 32)
    (hfuel : rest.length / BUFFER_SIZE + 1 ≤ fuel) :
    copyLoop fuel (.wb w none) { rest := rest, fault := none } size total =
      (.wb (w ++ rest) none, { rest := [], fault := none }, .ok size) := by
  induction fuel generalizing w rest total with
  | zero => exact absurd hfuel (Nat.not_succ_le_zero _)
  | succ f ih =>
    unfold copyLoop
    by_cases hlt : total < size
    · rw [if_pos hlt]
      simp only [IStream.read, Bool.and_not_self, Bool.false_eq_true, if_false, gzwrite,
        ne_eq, not_true_eq_false]
      have hmod : (total + (rest.take BUFFER_SIZE).length) % 2 ^ 32 =
          total + (rest.take BUFFER_SIZE).length := by
        apply Nat.mod_eq_of_lt
        have : (rest.take BUFFER_SIZE).length ≤ rest.length := by
          simp only [List.length_take]; omega
        omega
      rw [hmod]
      by_cases hbig : BUFFER_SIZE < rest.length
      · have hl : (rest.take BUFFER_SIZE).length = BUFFER_SIZE := by
          simp only [List.length_take]; omega
        have hf : (rest.drop BUFFER_SIZE).length / BUFFER_SIZE + 1 ≤ f := by
          simp only [List.length_drop]
          have : (rest.length - BUFFER_SIZE) / BUFFER_SIZE + 1 = rest.length / BUFFER_SIZE := by
            unfold BUFFER_SIZE at hbig ⊢
            omega
          omega
        rw [ih (w ++ rest.take BUFFER_SIZE) (rest.drop BUFFER_SIZE) _ (by
          simp only [List.length_drop, hl]; omega) hf]
        rw [List.append_assoc, List.take_append_drop]
      · have htake : rest.take BUFFER_SIZE = rest := List.take_of_length_le (by omega)
        have hdrop : rest.drop BUFFER_SIZE = [] := List.drop_of_length_le (by omega)
        rw [htake, hdrop, hinv]
        unfold copyLoop
        rw [if_neg (by omega)]
    · rw [if_neg hlt]
      have : rest = [] := List.length_eq_zero.mp (by omega)
      subst this
      have : total = size := by simpa using hinv
      subst this
      simp

theorem padLoop_healthy (fuel : Nat) (w : List Nat) (total : Nat)
    (hfuel : (512 - total % 512) % 512 ≤ fuel) :
    padLoop fuel (.wb w none) total =
      some (.wb (w ++ List.replicate ((512 - total % 512) % 512) 0) none) := by
  induction fuel generalizing w total with
  | zero =>
    unfold padLoop
    have h0 : total % 512 = 0 := by omega
    simp [TARHEADER_SIZE, h0]
  | succ f ih =>
    unfold padLoop
    by_cases h0 : total % 512 = 0
    · simp [TARHEADER_SIZE, h0]
    · have hstep : (total + 1) % 2 ^ 32 % 512 = (total + 1) % 512 :=
        Nat.mod_mod_of_dvd _ (by norm_num)
      have hk : (512 - total % 512) % 512 = (512 - (total + 1) % 2 ^ 32 % 512) % 512 + 1 := by
        rw [hstep]; omega
      simp only [TARHEADER_SIZE, ne_eq, h0, not_false_eq_true, if_true, gzputc, gzwrite]
      rw [ih _ _ (by omega), hk, List.replicate_succ, List.append_assoc]
      rfl

/-! ## Helper lemmas: one entry written, one entry read -/

theorem writeFile_healthy (fuel : Nat) (w : List Nat) (m : Mode) (o : Bool)
    (filename content : List Nat) (now : Nat)
    (hsize : content.length < 2 ^ 32)
    (hfuel : content.length / BUFFER_SIZE + TARHEADER_SIZE ≤ fuel) :
    TarFile.writeFile fuel { file_ := .wb w none, mode_ := m, isOpen_ := o } filename
        { rest := content, fault := none } now =
      ({ file_ := .wb (w ++ entryBytes { name := filename, content := content, now := now }) none,
         mode_ := m, isOpen_ := o },
       { rest := [], fault := none }, .ok ()) := by
  have hcopy := copyLoop_healthy fuel (w ++ headerBlock filename content.length now) content
    content.length 0 (by simp) hsize (by unfold TARHEADER_SIZE at hfuel; omega)
  simp only [List.append_assoc] at hcopy
  have hpad := padLoop_healthy fuel (w ++ headerBlock filename content.length now ++ content)
    content.length (by unfold TARHEADER_SIZE BUFFER_SIZE at hfuel; omega)
  simp only [List.append_assoc] at hpad
  simp only [TarFile.writeFile, TarFile.writeHeader_, IStream.measure, gzwrite,
    headerBlock_length, TARHEADER_SIZE, ne_eq, not_true_eq_false, if_false, hcopy, hpad,
    entryBytes, padding, List.append_assoc]

theorem toUnsigned_natCast (n : Nat) (h : n < 2 ^ 32) : toUnsigned (n : Int) = n := by
  unfold toUnsigned
  have : ((n : Int) % 2 ^ 32) = (n : Int) := Int.emod_eq_of_lt (by omega) (by exact_mod_cast h)
  rw [this]
  simp

theorem readLoop_full (fuel : Nat) (content rest sink : List Nat)
    (hfuel : content.length / BUFFER_SIZE ≤ fuel) :
    ∃ c1 c2, content = c1 ++ c2 ∧ c2.length ≤ BUFFER_SIZE ∧ (content ≠ [] → c2 ≠ []) ∧
      c2.length % 512 = content.length % 512 ∧
      readLoop fuel (.rb (content ++ rest)) sink (content.length : Int) =
        some (.rb (c2 ++ rest), sink ++ c1, (c2.length : Int)) := by
  induction fuel generalizing content sink with
  | zero =>
    have hsmall : content.length < BUFFER_SIZE := by
      unfold BUFFER_SIZE at hfuel ⊢
      omega
    refine ⟨[], content, rfl, by omega, fun h => h, rfl, ?_⟩
    unfold readLoop
    rw [if_neg (by omega)]
    simp
  | succ f ih =>
    by_cases hbig : BUFFER_SIZE < content.length
    · have hf : (content.drop BUFFER_SIZE).length / BUFFER_SIZE ≤ f := by
        simp only [List.length_drop]
        unfold BUFFER_SIZE at hbig hfuel ⊢
        omega
      obtain ⟨c1, c2, hc, hle, hne, hmod, hrun⟩ :=
        ih (content.drop BUFFER_SIZE) (sink ++ content.take BUFFER_SIZE) hf
      have hdl : ((content.drop BUFFER_SIZE).length : Int) = (content.length : Int) - 32768 := by
        simp only [List.length_drop]
        unfold BUFFER_SIZE at hbig ⊢
        omega
      refine ⟨content.take BUFFER_SIZE ++ c1, c2, ?_, hle, ?_, ?_, ?_⟩
      · rw [List.append_assoc, ← hc, List.take_append_drop]
      · intro _
        apply hne
        intro h
        have := congrArg List.length h
        simp only [List.length_drop, List.length_nil] at this
        omega
      · rw [hmod]
        simp only [List.length_drop]
        unfold BUFFER_SIZE at hbig ⊢
        omega
      · unfold readLoop
        rw [if_pos (by exact_mod_cast hbig)]
        have htake : (content ++ rest).take BUFFER_SIZE = content.take BUFFER_SIZE :=
          List.take_append_of_le_length (by omega)
        have hdrop : (content ++ rest).drop BUFFER_SIZE = content.drop BUFFER_SIZE ++ rest :=
          List.drop_append_of_le_length (by omega)
        have hl : (content.take BUFFER_SIZE).length = 32768 := by
          simp only [List.length_take]
          unfold BUFFER_SIZE at hbig ⊢
          omega
        simp only [gzread, htake, hdrop, hl]
        rw [toUnsigned_natCast 32768 (by norm_num)]
        rw [hdl, List.append_assoc] at hrun
        exact_mod_cast hrun
    · refine ⟨[], content, rfl, by omega, fun h => h, rfl, ?_⟩
      unfold readLoop
      rw [if_neg (by
        have : ¬ ((content.length : Int) > (BUFFER_SIZE : Int)) := by exact_mod_cast hbig
        exact this)]
      simp

theorem readNextFile_entry (fuel : Nat) (H content rest sink : List Nat) (m : Mode) (o : Bool)
    (hH : H.length = 512) (hname : H.head? ≠ some 0)
    (hsize : sscanfOctal 11 (H.drop SIZE_OFFSET) = some (content.length : Int))
    (hfuel : content.length / BUFFER_SIZE ≤ fuel) :
    TarFile.readNextFile fuel
        { file_ := .rb (H ++ (content ++ (List.replicate (padding content.length) 0 ++ rest))),
          mode_ := m, isOpen_ := o } sink =
      ({ file_ := .rb rest, mode_ := m, isOpen_ := o }, sink ++ content, .ok (cstr H)) := by
  have htake : ∀ X : List Nat, (H ++ X).take TARHEADER_SIZE = H := fun X =>
    List.take_left' hH
  have hdrop : ∀ X : List Nat, (H ++ X).drop TARHEADER_SIZE = X := fun X =>
    List.drop_left' hH
  have h512 : toUnsigned ((H.length : Nat) : Int) = 512 := by
    rw [toUnsigned_natCast _ (by rw [hH]; norm_num), hH]
  unfold TarFile.readNextFile
  simp only [gzread, htake, hdrop, h512, hsize]
  rw [if_neg (by norm_num), if_neg (by simp [TARHEADER_SIZE]), if_neg hname]
  by_cases hc : content = []
  · subst hc
    simp [padding]
  · have hpos : 0 < content.length := List.length_pos.mpr hc
    rw [if_neg (by exact_mod_cast (Nat.ne_of_gt hpos)), if_neg (by omega)]
    obtain ⟨c1, c2, hcc, hle, hne, hmod, hrun⟩ :=
      readLoop_full fuel content (List.replicate (padding content.length) 0 ++ rest) sink hfuel
    simp only [hrun, Int.toNat_ofNat]
    have ht2 : ∀ X : List Nat, (c2 ++ X).take c2.length = c2 := fun X => List.take_left' rfl
    have hd2 : ∀ X : List Nat, (c2 ++ X).drop c2.length = X := fun X => List.drop_left' rfl
    simp only [ht2, hd2, List.append_assoc, ← hcc]
    by_cases hover : c2.length % TARHEADER_SIZE > 0
    · rw [if_pos hover]
      have hp : TARHEADER_SIZE - c2.length % TARHEADER_SIZE = padding content.length := by
        unfold TARHEADER_SIZE at hover ⊢
        unfold padding
        omega
      have hd3 : (List.replicate (padding content.length) 0 ++ rest).drop
          (padding content.length) = rest := List.drop_left' (by simp)
      simp only [hp, hd3]
    · rw [if_neg hover]
      have hp : padding content.length = 0 := by
        unfold TARHEADER_SIZE at hover
        unfold padding
        omega
      simp [hp]

theorem headerBlock_cstr (filename : List Nat) (size now : Nat) (h0 : 0 ∉ filename)
    (hlen : filename.length ≤ 99) :
    cstr (headerBlock filename size now) = filename := by
  have hc := cstr_eq_self filename h0
  have h := headerBlock_name filename size now (by rw [hc]; exact hlen)
  rw [hc] at h
  rw [← slice_zero_append_drop (headerBlock filename size now) 100, h, List.append_assoc,
    List.cons_append]
  exact cstr_append_nul _ _ h0

theorem headerBlock_head (filename : List Nat) (size now : Nat) (hne : filename ≠ [])
    (h0 : 0 ∉ filename) (hlen : filename.length ≤ 99) :
    (headerBlock filename size now).head? ≠ some 0 := by
  have hc := cstr_eq_self filename h0
  have h := headerBlock_name filename size now (by rw [hc]; exact hlen)
  rw [hc] at h
  rw [← slice_zero_append_drop (headerBlock filename size now) 100, h]
  cases filename with
  | nil => exact absurd rfl hne
  | cons b bs =>
    simp only [List.cons_append, List.head?_cons, ne_eq, Option.some.injEq]
    intro hb
    exact h0 (hb ▸ List.mem_cons_self _ _)

theorem headerBlock_sscanf (filename : List Nat) (size now : Nat) (hsize : size < 8 ^ 11) :
    sscanfOctal 11 ((headerBlock filename size now).drop SIZE_OFFSET) = some (size : Int) := by
  have h := headerBlock_size filename size now hsize
  have hd := slice_append_drop (headerBlock filename size now) 124 12
  rw [h] at hd
  unfold SIZE_OFFSET
  rw [← hd, List.append_assoc,
    sscanfOctal_digits 11 (octFixed 11 size) _ (octFixed_length 11 size) (by norm_num)
      (fun d hd => octFixed_digit 11 size d hd),
    octValue_octFixed, Nat.mod_eq_of_lt hsize]

theorem readNextFile_entryBytes (fuel : Nat) (e : Entry) (rest sink : List Nat) (m : Mode)
    (o : Bool) (hname : validName e.name) (hsize : e.content.length < 2 ^ 32)
    (hfuel : e.content.length / BUFFER_SIZE ≤ fuel) :
    TarFile.readNextFile fuel { file_ := .rb (entryBytes e ++ rest), mode_ := m, isOpen_ := o }
        sink =
      ({ file_ := .rb rest, mode_ := m, isOpen_ := o }, sink ++ e.content, .ok e.name) := by
  obtain ⟨hne, h0, hlen⟩ := hname
  have h8 : e.content.length < 8 ^ 11 := lt_trans hsize (by norm_num)
  have := readNextFile_entry fuel (headerBlock e.name e.content.length e.now) e.content rest sink
    m o (headerBlock_length _ _ _) (headerBlock_head _ _ _ hne h0 hlen)
    (headerBlock_sscanf _ _ _ h8) hfuel
  rw [headerBlock_cstr _ _ _ h0 hlen] at this
  rw [← this]
  simp only [entryBytes, List.append_assoc]

theorem close_healthy (w : List Nat) (o : Bool) :
    TarFile.close { file_ := .wb w none, mode_ := .SAVE, isOpen_ := o } =
      ({ file_ := .wb (w ++ List.replicate 1024 0) none, mode_ := .SAVE, isOpen_ := false },
        .ok ()) := by
  have h : List.replicate 1024 0 = List.replicate 512 0 ++ List.replicate 512 0 := by
    rw [List.append_replicate_replicate]
  simp only [TarFile.close, gzwrite, gzclose, h, TARHEADER_SIZE, if_true, List.append_assoc]

theorem writeFiles_healthy (fuel : Nat) (es : List Entry) (w : List Nat) (m : Mode) (o : Bool)
    (hsize : ∀ e ∈ es, e.content.length < 2 ^ 32)
    (hfuel : ∀ e ∈ es, e.content.length / BUFFER_SIZE + TARHEADER_SIZE ≤ fuel) :
    writeFiles fuel { file_ := .wb w none, mode_ := m, isOpen_ := o } es =
      ({ file_ := .wb (w ++ archiveBytes es) none, mode_ := m, isOpen_ := o }, .ok ()) := by
  induction es generalizing w with
  | nil => simp [writeFiles, archiveBytes]
  | cons e es ih =>
    have h1 := writeFile_healthy fuel w m o e.name e.content e.now
      (hsize e (List.mem_cons_self _ _)) (hfuel e (List.mem_cons_self _ _))
    unfold writeFiles
    simp only [h1]
    rw [ih _ (fun x hx => hsize x (List.mem_cons_of_mem _ hx))
      (fun x hx => hfuel x (List.mem_cons_of_mem _ hx))]
    simp only [archiveBytes, List.append_assoc]

theorem readNextFile_endMarker (fuel : Nat) (rest sink : List Nat) (m : Mode) (o : Bool) :
    TarFile.readNextFile fuel
        { file_ := .rb (List.replicate 512 0 ++ rest), mode_ := m, isOpen_ := o } sink =
      ({ file_ := .rb rest, mode_ := m, isOpen_ := o }, sink, .ok []) := by
  have hl : (List.replicate 512 (0 : Nat)).length = 512 := List.length_replicate _ _
  have htake : (List.replicate 512 0 ++ rest).take TARHEADER_SIZE = List.replicate 512 0 :=
    List.take_left' hl
  have hdrop : (List.replicate 512 0 ++ rest).drop TARHEADER_SIZE = rest := List.drop_left' hl
  have h512 : toUnsigned (((List.replicate 512 (0 : Nat)).length : Nat) : Int) = 512 := by
    rw [hl]; exact toUnsigned_natCast 512 (by norm_num)
  have hhead : (List.replicate 512 (0 : Nat)).head? = some 0 := rfl
  unfold TarFile.readNextFile
  simp only [gzread, htake, hdrop, h512, hhead]
  rw [if_neg (by norm_num), if_neg (by simp [TARHEADER_SIZE]), if_pos trivial]

theorem readFiles_archive (fuel : Nat) (es : List Entry) (rest : List Nat) (m : Mode) (o : Bool)
    (hname : ∀ e ∈ es, validName e.name)
    (hsize : ∀ e ∈ es, e.content.length < 2 ^ 32)
    (hfuel : ∀ e ∈ es, e.content.length / BUFFER_SIZE ≤ fuel) :
    readFiles fuel (es.length + 1)
        { file_ := .rb (archiveBytes es ++ (List.replicate 512 0 ++ rest)), mode_ := m,
          isOpen_ := o } =
      es.map (fun e => (Outcome.ok e.name, e.content)) ++ [(Outcome.ok [], [])] := by
  induction es with
  | nil =>
    simp only [archiveBytes, List.nil_append, List.length_nil, readFiles,
      readNextFile_endMarker, List.map_nil]
  | cons e es ih =>
    have h1 := readNextFile_entryBytes fuel e (archiveBytes es ++ (List.replicate 512 0 ++ rest))
      [] m o (hname e (List.mem_cons_self _ _)) (hsize e (List.mem_cons_self _ _))
      (hfuel e (List.mem_cons_self _ _))
    simp only [archiveBytes, List.length_cons, List.append_assoc, List.map_cons,
      List.cons_append]
    rw [readFiles]
    simp only [h1, List.nil_append]
    rw [ih (fun x hx => hname x (List.mem_cons_of_mem _ hx))
      (fun x hx => hsize x (List.mem_cons_of_mem _ hx))
      (fun x hx => hfuel x (List.mem_cons_of_mem _ hx))]

/-! ## Helper lemmas: a transport without limit stays writable -/

theorem copyLoop_unlimited (fuel : Nat) (w : List Nat) (src : IStream) (size total : Nat) :
    ∃ w2, (copyLoop fuel (.wb w none) src size total).1 = .wb w2 none := by
  induction fuel generalizing w src total with
  | zero =>
    unfold copyLoop
    split_ifs <;> exact ⟨w, rfl⟩
  | succ f ih =>
    unfold copyLoop
    by_cases hlt : total < size
    · rw [if_pos hlt]
      simp only [gzwrite, ne_eq, not_true_eq_false, if_false]
      split_ifs
      · exact ⟨w, rfl⟩
      · exact ih _ _ _
    · rw [if_neg hlt]
      exact ⟨w, rfl⟩

theorem padLoop_unlimited (fuel : Nat) (w : List Nat) (total : Nat) (file : GzFile)
    (h : padLoop fuel (.wb w none) total = some file) : ∃ w2, file = .wb w2 none := by
  induction fuel generalizing w total with
  | zero =>
    unfold padLoop at h
    split_ifs at h
    exact ⟨w, by simpa using h.symm⟩
  | succ f ih =>
    unfold padLoop at h
    split_ifs at h
    · exact ih _ _ h
    · exact ⟨w, by simpa using h.symm⟩

theorem writeFile_unlimited (fuel : Nat) (w : List Nat) (m : Mode) (o : Bool)
    (filename : List Nat) (src : IStream) (now : Nat) :
    ∃ w2, (TarFile.writeFile fuel { file_ := .wb w none, mode_ := m, isOpen_ := o } filename
      src now).1 = { file_ := .wb w2 none, mode_ := m, isOpen_ := o } := by
  obtain ⟨w2, h2⟩ := copyLoop_unlimited fuel (w ++ headerBlock filename src.measure now) src
    src.measure 0
  simp only [TarFile.writeFile, TarFile.writeHeader_, gzwrite, headerBlock_length,
    TARHEADER_SIZE, ne_eq, not_true_eq_false, if_false]
  rcases hc : copyLoop fuel (.wb (w ++ headerBlock filename src.measure now) none) src
    src.measure 0 with ⟨file2, src2, res⟩
  rw [hc] at h2
  simp only at h2
  subst h2
  cases res with
  | ok total =>
    simp only
    split_ifs
    · rcases hp : padLoop fuel (.wb w2 none) total with _ | file3
      · exact ⟨w2, rfl⟩
      · obtain ⟨w3, h3⟩ := padLoop_unlimited fuel w2 total file3 hp
        subst h3
        exact ⟨w3, rfl⟩
    · exact ⟨w2, rfl⟩
  | runtime_error what => exact ⟨w2, rfl⟩
  | hang => exact ⟨w2, rfl⟩
  | undefined => exact ⟨w2, rfl⟩

theorem writeFiles_unlimited (fuel : Nat) (es : List Entry) (w : List Nat) (m : Mode) (o : Bool) :
    ∃ w2, (writeFiles fuel { file_ := .wb w none, mode_ := m, isOpen_ := o } es).1 =
      { file_ := .wb w2 none, mode_ := m, isOpen_ := o } := by
  induction es generalizing w with
  | nil => exact ⟨w, rfl⟩
  | cons e es ih =>
    obtain ⟨w2, h2⟩ := writeFile_unlimited fuel w m o e.name
      { rest := e.content, fault := none } e.now
    unfold writeFiles
    rcases hw : TarFile.writeFile fuel { file_ := .wb w none, mode_ := m, isOpen_ := o } e.name
      { rest := e.content, fault := none } e.now with ⟨tf1, src1, res⟩
    rw [hw] at h2
    simp only at h2
    subst h2
    cases res with
    | ok u => exact ih w2
    | runtime_error what => exact ⟨w2, rfl⟩
    | hang => exact ⟨w2, rfl⟩
    | undefined => exact ⟨w2, rfl⟩

/-! ## Helper lemmas: a transport that ends too early -/

theorem readLoop_exhausted (fuel : Nat) (sink : List Nat) (size : Int)
    (hsize : size > (BUFFER_SIZE : Int)) :
    readLoop fuel (GzFile.rb []) sink size = none := by
  induction fuel with
  | zero =>
    unfold readLoop
    rw [if_pos hsize]
  | succ f ih =>
    unfold readLoop
    rw [if_pos hsize]
    have h0 : toUnsigned (0 : Int) = 0 := by decide
    simp only [gzread, List.take_nil, List.drop_nil, List.append_nil, List.length_nil,
      Nat.cast_zero, h0, sub_zero]
    exact ih

/-! ## Helper lemmas: byte values and the checksum -/

theorem poke_bytes (buf : List Nat) (off : Nat) (src : List Nat)
    (hbuf : ∀ b ∈ buf, b < 256) (hsrc : ∀ b ∈ src, b < 256) :
    ∀ b ∈ poke buf off src, b < 256 := by
  intro b hb
  simp only [poke, List.mem_append] at hb
  rcases hb with (hb | hb) | hb
  · exact hbuf b (List.mem_of_mem_take hb)
  · exact hsrc b (List.mem_of_mem_take hb)
  · exact hbuf b (List.mem_of_mem_drop hb)

theorem text_bytes (text : List Nat) (h : ∀ b ∈ text, b < 256) : ∀ b ∈ text ++ [0], b < 256 := by
  intro b hb
  simp only [List.mem_append, List.mem_singleton] at hb
  rcases hb with hb | hb
  · exact h b hb
  · omega

theorem printfOctal_bytes (bits w n : Nat) : ∀ b ∈ printfOctal bits w n, b < 256 := by
  intro b hb
  have := printfOctal_digit bits w n b hb
  omega

theorem cstr_bytes (s : List Nat) (h : ∀ b ∈ s, b < 256) : ∀ b ∈ cstr s, b < 256 :=
  fun b hb => h b ((List.takeWhile_prefix _).subset hb)

theorem headerFields_length (filename : List Nat) (size now : Nat) :
    (headerFields filename size now).length = 512 := by
  simp only [headerFields, sprintf, poke_length, List.length_replicate, TARHEADER_SIZE]

theorem headerFields_bytes (filename : List Nat) (size now : Nat)
    (h : ∀ b ∈ filename, b < 256) : ∀ b ∈ headerFields filename size now, b < 256 := by
  unfold headerFields sprintf
  simp only []
  refine poke_bytes _ _ _ (poke_bytes _ _ _ (poke_bytes _ _ _ (poke_bytes _ _ _
    (poke_bytes _ _ _ (poke_bytes _ _ _ (poke_bytes _ _ _ ?_ ?_) ?_) ?_) ?_) ?_) ?_) ?_
  · intro b hb
    rw [List.eq_of_mem_replicate hb]
    omega
  · exact text_bytes _ (cstr_bytes _ h)
  · decide
  · decide
  · exact text_bytes _ (printfOctal_bytes _ _ _)
  · exact text_bytes _ (printfOctal_bytes _ _ _)
  · decide
  · exact text_bytes _ (printfOctal_bytes _ _ _)

theorem sum_le_of_bytes (l : List Nat) (h : ∀ b ∈ l, b < 256) : l.sum ≤ 255 * l.length := by
  induction l with
  | nil => simp
  | cons b bs ih =>
    have hb := h b (List.mem_cons_self _ _)
    have := ih (fun x hx => h x (List.mem_cons_of_mem _ hx))
    simp only [List.sum_cons, List.length_cons]
    omega

theorem headerChecksum_eq (header : List Nat) (hlen : header.length = 512) :
    headerChecksum header = (header.take 148).sum + 8 * 32 + (header.drop 156).sum := by
  have h8 : (List.replicate 8 32).take (header.length - 148) = List.replicate 8 32 :=
    List.take_of_length_le (by rw [hlen, List.length_replicate]; omega)
  unfold headerChecksum poke CHECKSUM_OFFSET
  rw [h8]
  simp only [List.sum_append, List.sum_replicate, smul_eq_mul, Nat.add_assoc,
    List.length_replicate]

theorem headerChecksum_le (header : List Nat) (hlen : header.length = 512)
    (h : ∀ b ∈ header, b < 256) : headerChecksum header ≤ 128776 := by
  rw [headerChecksum_eq header hlen]
  have h1 := sum_le_of_bytes (header.take 148) (fun b hb => h b (List.mem_of_mem_take hb))
  have h2 := sum_le_of_bytes (header.drop 156) (fun b hb => h b (List.mem_of_mem_drop hb))
  simp only [List.length_take, List.length_drop, hlen] at h1 h2
  omega

theorem headerChecksum_poke (header : List Nat) (junk : List Nat) (hlen : header.length = 512)
    (hjunk : junk.length ≤ 8) :
    headerChecksum (poke header CHECKSUM_OFFSET junk) = headerChecksum header := by
  rw [headerChecksum_eq _ (by rw [poke_length]; exact hlen), headerChecksum_eq _ hlen]
  have h1 : (poke header CHECKSUM_OFFSET junk).take 148 = header.take 148 := by
    have := slice_poke_before header CHECKSUM_OFFSET junk 0 148 (by decide)
    simpa [slice] using this
  have h2 : (poke header CHECKSUM_OFFSET junk).drop 156 = header.drop 156 := by
    have := slice_poke_after header CHECKSUM_OFFSET junk 156 356 (by
      unfold CHECKSUM_OFFSET; omega)
    unfold slice at this
    rw [List.take_of_length_le (by simp [poke_length, hlen]),
      List.take_of_length_le (by simp [hlen])] at this
    exact this
  rw [h1, h2]

theorem headerBlock_checksum_text (filename : List Nat) (size now : Nat)
    (h : ∀ b ∈ filename, b < 256) :
    printfOctal 32 6 (headerChecksum (headerFields filename size now)) =
      octFixed 6 (headerChecksum (headerFields filename size now)) := by
  have hle := headerChecksum_le _ (headerFields_length filename size now)
    (headerFields_bytes filename size now h)
  exact printfOctal_eq 32 6 _ (by norm_num) (by omega) (by omega)

theorem slice_poke_exact (buf : List Nat) (off : Nat) (src : List Nat) (b : Nat)
    (hb : src.length = b) (h : off + b ≤ buf.length) :
    slice (poke buf off src) off b = src := by
  subst hb
  exact slice_poke_same buf off src h

theorem slice_poke_disjoint (buf : List Nat) (off : Nat) (src : List Nat) (a b : Nat)
    (h : a + b ≤ off ∨ off + src.length ≤ a) :
    slice (poke buf off src) a b = slice buf a b := by
  rcases h with h | h
  · exact slice_poke_before buf off src a b h
  · exact slice_poke_after buf off src a b h

theorem headerBlock_eq (filename : List Nat) (size now : Nat) (h : ∀ b ∈ filename, b < 256) :
    headerBlock filename size now =
      poke (headerFields filename size now) CHECKSUM_OFFSET
        (octFixed 6 (headerChecksum (headerFields filename size now)) ++ [0]) := by
  unfold headerBlock sprintf
  simp only [headerBlock_checksum_text filename size now h]

theorem headerChecksum_headerBlock (filename : List Nat) (size now : Nat)
    (h : ∀ b ∈ filename, b < 256) :
    headerChecksum (headerBlock filename size now) =
      headerChecksum (headerFields filename size now) := by
  rw [headerBlock_eq filename size now h]
  exact headerChecksum_poke _ _ (headerFields_length _ _ _) (by simp [octFixed_length])

theorem headerBlock_checksum_field (filename : List Nat) (size now : Nat)
    (h : ∀ b ∈ filename, b < 256) :
    slice (headerBlock filename size now) 148 7 =
      octFixed 6 (headerChecksum (headerBlock filename size now)) ++ [0] := by
  rw [headerChecksum_headerBlock filename size now h]
  rw [headerBlock_eq filename size now h]
  exact slice_poke_exact _ _ _ 7 (by simp [octFixed_length]) (by
    rw [headerFields_length]; decide)

/-! ## Helper lemmas: the header block of a name that fits -/

theorem headerBlock_layers (filename : List Nat) (size now : Nat)
    (h0 : 0 ∉ filename) (hbytes : ∀ b ∈ filename, b < 256)
    (hsize : size < 8 ^ 11) (hnow : now < 8 ^ 11) :
    ∃ c : Nat, headerBlock filename size now =
      poke (poke (poke (poke (poke (poke (poke (poke (List.replicate 512 0)
        0 (filename ++ [0]))
        257 [117, 115, 116, 97, 114, 0])
        263 [32, 32])
        136 (octFixed 11 now ++ [0]))
        100 [48, 48, 48, 48, 54, 52, 52, 0])
        156 [0])
        124 (octFixed 11 size ++ [0]))
        148 (octFixed 6 c ++ [0]) := by
  have hs : printfOctal 64 11 size = octFixed 11 size :=
    printfOctal_eq 64 11 size (by norm_num) hsize (lt_trans hsize (by norm_num))
  have hn : printfOctal 64 11 now = octFixed 11 now :=
    printfOctal_eq 64 11 now (by norm_num) hnow (lt_trans hnow (by norm_num))
  have hm : printfOctal 32 7 420 ++ [0] = [48, 48, 48, 48, 54, 52, 52, 0] := by decide
  have hu : ascii "ustar" ++ [0] = [117, 115, 116, 97, 114, 0] := by decide
  have hv : ascii "  " = [32, 32] := by decide
  rw [headerBlock_eq filename size now hbytes]
  generalize headerChecksum (headerFields filename size now) = c
  refine ⟨c, ?_⟩
  unfold headerFields sprintf
  simp only [hs, hn, hm, hu, hv, cstr_eq_self filename h0, TARHEADER_SIZE, NAME_OFFSET,
    MAGIC_OFFSET, VERSION_OFFSET, MTIME_OFFSET, MODE_OFFSET, TYPEFLAG_OFFSET, SIZE_OFFSET,
    CHECKSUM_OFFSET]

/-! ## Helper lemmas: contents of 2^32 bytes and more -/

theorem copyLoop_hangs (fuel : Nat) (w rest : List Nat) (size total : Nat)
    (hsize : 2 ^ 32 ≤ size) (htotal : total < 2 ^ 32) :
    (copyLoop fuel (.wb w none) { rest := rest, fault := none } size total).2.2 =
      Outcome.hang := by
  induction fuel generalizing w rest total with
  | zero =>
    unfold copyLoop
    rw [if_pos (by omega)]
  | succ f ih =>
    unfold copyLoop
    rw [if_pos (by omega)]
    simp only [IStream.read, Bool.and_not_self, Bool.false_eq_true, if_false, gzwrite,
      ne_eq, not_true_eq_false]
    exact ih _ _ _ (Nat.mod_lt _ (by norm_num))

/-- The 32-bit counter of the copy loop never reaches a size of 2^32 bytes or more: on a
healthy stream and an unlimited transport `writeFile` does not return, whatever the fuel. -/
theorem writeFile_hangs (fuel : Nat) (w : List Nat) (m : Mode) (o : Bool)
    (filename content : List Nat) (now : Nat) (hsize : 2 ^ 32 ≤ content.length) :
    (TarFile.writeFile fuel { file_ := .wb w none, mode_ := m, isOpen_ := o } filename
      { rest := content, fault := none } now).2.2 = Outcome.hang := by
  have h := copyLoop_hangs fuel (w ++ headerBlock filename content.length now) content
    content.length 0 hsize (by norm_num)
  simp only [TarFile.writeFile, TarFile.writeHeader_, IStream.measure, gzwrite,
    headerBlock_length, TARHEADER_SIZE, ne_eq, not_true_eq_false, if_false]
  rcases hc : copyLoop fuel (.wb (w ++ headerBlock filename content.length now) none)
    { rest := content, fault := none } content.length 0 with ⟨file2, src2, res⟩
  rw [hc] at h
  simp only at h
  subst h
  rfl

/-! ## Helper lemmas: the length of octal text -/

theorem octLen_le_fuel (fuel n : Nat) : octLen fuel n ≤ fuel := by
  induction fuel generalizing n with
  | zero => simp [octLen]
  | succ f ih =>
    unfold octLen
    split_ifs
    · omega
    · have := ih (n / 8)
      omega

theorem printfOctal_length_le (bits w n : Nat) (hw : w ≤ 22) :
    (printfOctal bits w n).length ≤ 22 := by
  unfold printfOctal
  rw [octFixed_length]
  exact max_le hw (octLen_le_fuel 22 _)

theorem printfOctal_length_lt (bits w n k : Nat) (hw : 1 ≤ w) (hwk : w ≤ k) (hn : n < 8 ^ k) :
    (printfOctal bits w n).length ≤ k := by
  unfold printfOctal
  rw [octFixed_length]
  exact max_le hwk (octLen_le 22 k _ (le_trans hw hwk)
    (lt_of_le_of_lt (Nat.mod_le _ _) hn))

/-! ## Helper lemmas: `writeFile` on a transport that fills up or a source that breaks -/

theorem take_chunks (rest : List Nat) (B r : Nat) (hB : 0 < B) (hr : B ≤ r) :
    rest.take B ++ (rest.drop B).take ((r - B) / B * B) = rest.take (r / B * B) := by
  have h : r / B * B = B + (r - B) / B * B := by
    have h1 : r / B = (r - B) / B + 1 := by
      rw [← Nat.sub_add_cancel hr, Nat.add_div_right _ hB, Nat.add_sub_cancel]
    rw [h1, Nat.add_mul, Nat.one_mul, Nat.add_comm]
  rw [h, List.take_add]

theorem copyLoop_short_write (fuel : Nat) (w rest : List Nat) (size total room : Nat)
    (hinv : total + rest.length = size) (hsize : size < 2 ^ 32) (hroom : room < rest.length)
    (hfuel : rest.length / BUFFER_SIZE + 1 ≤ fuel) :
    (copyLoop fuel (.wb w (some room)) { rest := rest, fault := none } size total).1 =
      .err (w ++ rest.take (room / BUFFER_SIZE * BUFFER_SIZE)) ∧
    (copyLoop fuel (.wb w (some room)) { rest := rest, fault := none } size total).2.2 =
      Outcome.runtime_error "Problem writing data for " := by
  induction fuel generalizing w rest total room with
  | zero => exact absurd hfuel (Nat.not_succ_le_zero _)
  | succ f ih =>
    unfold copyLoop
    rw [if_pos (by omega)]
    simp only [IStream.read, Bool.and_not_self, Bool.false_eq_true, if_false, gzwrite]
    by_cases hfit : (rest.take BUFFER_SIZE).length ≤ room
    · have hl : (rest.take BUFFER_SIZE).length = BUFFER_SIZE := by
        simp only [List.length_take] at hfit ⊢
        omega
      have hB : BUFFER_SIZE ≤ room := by omega
      have hf : (rest.drop BUFFER_SIZE).length / BUFFER_SIZE + 1 ≤ f := by
        simp only [List.length_drop]
        have hbig : BUFFER_SIZE < rest.length := by omega
        unfold BUFFER_SIZE at hbig hfuel ⊢
        omega
      have hmod : (total + BUFFER_SIZE) % 2 ^ 32 = total + BUFFER_SIZE := by
        apply Nat.mod_eq_of_lt
        omega
      rw [if_pos hfit]
      simp only [hl, ne_eq, not_true_eq_false, if_false, hmod]
      have := ih (w ++ rest.take BUFFER_SIZE) (rest.drop BUFFER_SIZE) (total + BUFFER_SIZE)
        (room - BUFFER_SIZE) (by simp only [List.length_drop]; omega)
        (by simp only [List.length_drop]; omega) hf
      rw [List.append_assoc, take_chunks rest BUFFER_SIZE room (by decide) hB] at this
      exact this
    · have hpos : (rest.take BUFFER_SIZE).length ≠ 0 := by omega
      have hz : room / BUFFER_SIZE = 0 := by
        apply Nat.div_eq_of_lt
        simp only [List.length_take] at hfit
        omega
      rw [if_neg hfit]
      simp only [ne_eq, hpos, not_false_eq_true, if_true, hz, Nat.zero_mul, List.take_zero,
        List.append_nil, and_self]

theorem copyLoop_read_fault (fuel : Nat) (w rest : List Nat) (size total k : Nat)
    (hinv : total + rest.length = size) (hsize : size < 2 ^ 32) (hk : k < rest.length)
    (hfuel : rest.length / BUFFER_SIZE + 1 ≤ fuel) :
    (copyLoop fuel (.wb w none) { rest := rest, fault := some k } size total).1 =
      .wb (w ++ rest.take (k / BUFFER_SIZE * BUFFER_SIZE)) none ∧
    (copyLoop fuel (.wb w none) { rest := rest, fault := some k } size total).2.2 =
      Outcome.ok (total + k / BUFFER_SIZE * BUFFER_SIZE) := by
  induction fuel generalizing w rest total k with
  | zero => exact absurd hfuel (Nat.not_succ_le_zero _)
  | succ f ih =>
    unfold copyLoop
    rw [if_pos (by omega)]
    by_cases hbreak : k < BUFFER_SIZE
    · have hz : k / BUFFER_SIZE = 0 := Nat.div_eq_of_lt hbreak
      simp only [IStream.read, hbreak, hk, and_self, if_true, Bool.not_false, Bool.and_self,
        hz, Nat.zero_mul, List.take_zero, List.append_nil, Nat.add_zero]
    · have hB : BUFFER_SIZE ≤ k := by omega
      have hl : (rest.take BUFFER_SIZE).length = BUFFER_SIZE := by
        simp only [List.length_take]
        omega
      have hf : (rest.drop BUFFER_SIZE).length / BUFFER_SIZE + 1 ≤ f := by
        simp only [List.length_drop]
        have hbig : BUFFER_SIZE < rest.length := by omega
        unfold BUFFER_SIZE at hbig hfuel ⊢
        omega
      have hmod : (total + BUFFER_SIZE) % 2 ^ 32 = total + BUFFER_SIZE := by
        apply Nat.mod_eq_of_lt
        omega
      have hdiv : k / BUFFER_SIZE * BUFFER_SIZE =
          BUFFER_SIZE + (k - BUFFER_SIZE) / BUFFER_SIZE * BUFFER_SIZE := by
        have h1 : k / BUFFER_SIZE = (k - BUFFER_SIZE) / BUFFER_SIZE + 1 := by
          rw [← Nat.sub_add_cancel hB, Nat.add_div_right _ (by decide), Nat.add_sub_cancel]
        rw [h1, Nat.add_mul, Nat.one_mul, Nat.add_comm]
      simp only [IStream.read, hbreak, false_and, if_false, hl, lt_self_iff_false,
        decide_False, Bool.and_self, Bool.false_eq_true, gzwrite, ne_eq, not_true_eq_false,
        hmod]
      have := ih (w ++ rest.take BUFFER_SIZE) (rest.drop BUFFER_SIZE) (total + BUFFER_SIZE)
        (k - BUFFER_SIZE) (by simp only [List.length_drop]; omega)
        (by simp only [List.length_drop]; omega) hf
      rw [List.append_assoc, take_chunks rest BUFFER_SIZE k (by decide) hB] at this
      rw [hdiv, ← Nat.add_assoc]
      rw [hdiv] at this
      exact this

/-! ## Helper lemmas: `std::map` -/

theorem find_assign {V : Type} (m : StdMap V) (key : String) (value : V) (k : String) :
    StdMap.find (StdMap.assign m key value) k =
      if k = key then some value else StdMap.find m k := by
  induction m with
  | nil =>
    simp only [StdMap.assign, StdMap.find]
  | cons p rest ih =>
    obtain ⟨k0, v0⟩ := p
    unfold StdMap.assign
    by_cases hlt : key < k0
    · rw [if_pos hlt]
      simp only [StdMap.find]
    · rw [if_neg hlt]
      by_cases heq : key = k0
      · subst heq
        rw [if_pos rfl]
        simp only [StdMap.find]
        split_ifs <;> rfl
      · rw [if_neg heq]
        simp only [StdMap.find, ih]
        by_cases h1 : k = k0
        · subst h1
          have : ¬ k = key := fun h => heq h.symm
          simp only [if_true, if_neg this]
        · simp only [if_neg h1]

theorem mem_keys_assign {V : Type} (m : StdMap V) (key : String) (value : V) (k : String) :
    k ∈ StdMap.keys (StdMap.assign m key value) ↔ k = key ∨ k ∈ StdMap.keys m := by
  induction m with
  | nil => simp [StdMap.assign, StdMap.keys]
  | cons p rest ih =>
    obtain ⟨k0, v0⟩ := p
    unfold StdMap.assign
    unfold StdMap.keys at ih ⊢
    by_cases hlt : key < k0
    · rw [if_pos hlt]
      simp
    · rw [if_neg hlt]
      by_cases heq : key = k0
      · subst heq
        rw [if_pos rfl]
        simp
      · rw [if_neg heq]
        simp only [List.map_cons, List.mem_cons, ih]
        tauto

theorem sorted_keys_assign {V : Type} (m : StdMap V) (key : String) (value : V)
    (h : (StdMap.keys m).Pairwise (· < ·)) :
    (StdMap.keys (StdMap.assign m key value)).Pairwise (· < ·) := by
  induction m with
  | nil => simp [StdMap.assign, StdMap.keys]
  | cons p rest ih =>
    obtain ⟨k0, v0⟩ := p
    have hk : StdMap.keys ((k0, v0) :: rest) = k0 :: StdMap.keys rest := rfl
    rw [hk, List.pairwise_cons] at h
    unfold StdMap.assign
    by_cases hlt : key < k0
    · rw [if_pos hlt]
      have hk2 : StdMap.keys ((key, value) :: (k0, v0) :: rest) =
          key :: k0 :: StdMap.keys rest := rfl
      rw [hk2, List.pairwise_cons, List.pairwise_cons]
      refine ⟨?_, h.1, h.2⟩
      intro x hx
      rcases List.mem_cons.mp hx with hx | hx
      · rw [hx]; exact hlt
      · exact lt_trans hlt (h.1 x hx)
    · rw [if_neg hlt]
      by_cases heq : key = k0
      · subst heq
        rw [if_pos rfl]
        have hk2 : StdMap.keys ((key, value) :: rest) = key :: StdMap.keys rest := rfl
        rw [hk2, List.pairwise_cons]
        exact h
      · rw [if_neg heq]
        have hk2 : StdMap.keys ((k0, v0) :: StdMap.assign rest key value) =
            k0 :: StdMap.keys (StdMap.assign rest key value) := rfl
        rw [hk2, List.pairwise_cons]
        refine ⟨?_, ih h.2⟩
        intro x hx
        rcases (mem_keys_assign rest key value x).mp hx with hx | hx
        · rw [hx]
          exact lt_of_le_of_ne (not_lt.mp hlt) (fun hc => heq hc.symm)
        · exact h.1 x hx

theorem mem_keys_iff_find {V : Type} (m : StdMap V) (k : String) :
    k ∈ StdMap.keys m ↔ ∃ v, StdMap.find m k = some v := by
  induction m with
  | nil => simp [StdMap.keys, StdMap.find]
  | cons p rest ih =>
    obtain ⟨k0, v0⟩ := p
    have hk : StdMap.keys ((k0, v0) :: rest) = k0 :: StdMap.keys rest := rfl
    rw [hk, List.mem_cons, ih]
    simp only [StdMap.find]
    by_cases h1 : k = k0
    · simp [h1]
    · simp [h1]

theorem forInstrument_assign (ec : EstimatedCosts) (key : String) (costs : ResponseTimeCosts)
    (instrument : String) :
    EstimatedCosts.forInstrument (StdMap.assign ec key costs) instrument =
      if instrument = key then costs else EstimatedCosts.forInstrument ec instrument := by
  unfold EstimatedCosts.forInstrument
  rw [find_assign]
  split_ifs <;> rfl

theorem forInstrument_absent (ec : EstimatedCosts) (instrument : String)
    (h : instrument ∉ EstimatedCosts.getInstruments ec) :
    EstimatedCosts.forInstrument ec instrument = [] := by
  unfold EstimatedCosts.forInstrument
  unfold EstimatedCosts.getInstruments at h
  rw [mem_keys_iff_find] at h
  cases hf : StdMap.find ec instrument with
  | none => rfl
  | some c => exact absurd ⟨c, hf⟩ h

/-! ## Helper lemmas: `getMaximumCost` -/

theorem getCost_eq (costs : ResponseTimeCosts) (rto : String) (c : ℚ)
    (h : StdMap.find costs rto = some c) : ResponseTimeCosts.getCost costs rto = .ok c := by
  unfold ResponseTimeCosts.getCost
  rw [h]

theorem getCost_missing (costs : ResponseTimeCosts) (rto : String)
    (h : StdMap.find costs rto = none) :
    ResponseTimeCosts.getCost costs rto =
      .error (.invalid_argument ("The following RTO was not found: " ++ rto)) := by
  unfold ResponseTimeCosts.getCost
  rw [h]

theorem stdMax_ge_left (a b : ℚ) : a ≤ stdMax a b := by
  unfold stdMax
  split_ifs with h
  · exact le_of_lt h
  · exact le_refl a

theorem stdMax_ge_right (a b : ℚ) : b ≤ stdMax a b := by
  unfold stdMax
  split_ifs with h
  · exact le_refl b
  · exact not_lt.mp h

theorem stdMax_cases (a b : ℚ) : stdMax a b = a ∨ stdMax a b = b := by
  unfold stdMax
  split_ifs
  · exact Or.inr rfl
  · exact Or.inl rfl

theorem getMaximumCostLoop_missing (entries : List (String × ResponseTimeCosts)) (rto : String)
    (maxCost : ℚ) (h : ∃ p ∈ entries, StdMap.find p.2 rto = none) :
    EstimatedCosts.getMaximumCostLoop entries rto maxCost =
      .error (.invalid_argument ("The following RTO was not found: " ++ rto)) := by
  induction entries generalizing maxCost with
  | nil =>
    obtain ⟨p, hp, _⟩ := h
    exact absurd hp (List.not_mem_nil p)
  | cons q rest ih =>
    obtain ⟨name, costs⟩ := q
    unfold EstimatedCosts.getMaximumCostLoop
    cases hf : StdMap.find costs rto with
    | none => rw [getCost_missing costs rto hf]
    | some c =>
      rw [getCost_eq costs rto c hf]
      apply ih
      obtain ⟨p, hp, hnone⟩ := h
      rcases List.mem_cons.mp hp with hp | hp
      · subst hp
        rw [hf] at hnone
        exact absurd hnone (by simp)
      · exact ⟨p, hp, hnone⟩

theorem getMaximumCostLoop_present (entries : List (String × ResponseTimeCosts)) (rto : String)
    (maxCost : ℚ) (h : ∀ p ∈ entries, ∃ c, StdMap.find p.2 rto = some c) :
    ∃ v, EstimatedCosts.getMaximumCostLoop entries rto maxCost = .ok v ∧ maxCost ≤ v ∧
      (∀ p ∈ entries, ∀ c, StdMap.find p.2 rto = some c → c ≤ v) ∧
      (v = maxCost ∨ ∃ p ∈ entries, StdMap.find p.2 rto = some v) := by
  induction entries generalizing maxCost with
  | nil =>
    exact ⟨maxCost, rfl, le_refl _, fun p hp => absurd hp (List.not_mem_nil p), Or.inl rfl⟩
  | cons q rest ih =>
    obtain ⟨name, costs⟩ := q
    obtain ⟨c0, hc0⟩ := h (name, costs) (List.mem_cons_self _ _)
    obtain ⟨v, hv, hge, hall, hor⟩ := ih (stdMax maxCost c0)
      (fun p hp => h p (List.mem_cons_of_mem _ hp))
    refine ⟨v, ?_, le_trans (stdMax_ge_left maxCost c0) hge, ?_, ?_⟩
    · unfold EstimatedCosts.getMaximumCostLoop
      rw [getCost_eq costs rto c0 hc0]
      exact hv
    · intro p hp c hc
      rcases List.mem_cons.mp hp with hp | hp
      · subst hp
        rw [hc0] at hc
        have : c0 = c := Option.some.inj hc
        rw [← this]
        exact le_trans (stdMax_ge_right maxCost c0) hge
      · exact hall p hp c hc
    · rcases hor with hor | ⟨p, hp, hpv⟩
      · rcases stdMax_cases maxCost c0 with hm | hm
        · exact Or.inl (hor.trans hm)
        · refine Or.inr ⟨(name, costs), List.mem_cons_self _ _, ?_⟩
          rw [hor, hm]
          exact hc0
      · exact Or.inr ⟨p, List.mem_cons_of_mem _ hp, hpv⟩

/-! ## Helper lemmas: the loop of `getEstimatedCosts` -/

theorem lastCost_nil (instrument rto : String) : lastCost [] instrument rto = none := rfl

theorem lastCost_cons (e : CostElement) (es : List CostElement) (instrument rto : String) :
    lastCost (e :: es) instrument rto =
      (lastCost es instrument rto).or
        (if asString e.Instrument = instrument ∧ asString e.RTO = rto then
          some (asDouble e.Cost) else none) := by
  unfold lastCost
  by_cases h : asString e.Instrument = instrument ∧ asString e.RTO = rto
  · rw [List.filter_cons_of_pos (by simpa using h), if_pos h, List.getLast?_cons]
    cases (List.filter (fun e => decide (asString e.Instrument = instrument ∧
      asString e.RTO = rto)) es).getLast? <;> rfl
  · rw [List.filter_cons_of_neg (by simpa using h), if_neg h]
    cases (List.filter (fun e => decide (asString e.Instrument = instrument ∧
      asString e.RTO = rto)) es).getLast? <;> rfl

theorem lastCost_isSome (es : List CostElement) (instrument rto : String) :
    (∃ c, lastCost es instrument rto = some c) ↔
      ∃ e ∈ es, asString e.Instrument = instrument ∧ asString e.RTO = rto := by
  induction es with
  | nil => simp [lastCost_nil]
  | cons e es ih =>
    rw [lastCost_cons]
    constructor
    · rintro ⟨c, hc⟩
      cases hl : lastCost es instrument rto with
      | some c2 =>
        obtain ⟨e2, he2, hm⟩ := ih.mp ⟨c2, hl⟩
        exact ⟨e2, List.mem_cons_of_mem _ he2, hm⟩
      | none =>
        rw [hl] at hc
        by_cases h : asString e.Instrument = instrument ∧ asString e.RTO = rto
        · exact ⟨e, List.mem_cons_self _ _, h⟩
        · rw [if_neg h] at hc
          exact absurd hc (by simp)
    · rintro ⟨e2, he2, hm⟩
      rcases List.mem_cons.mp he2 with he2 | he2
      · subst he2
        rw [if_pos hm]
        cases lastCost es instrument rto with
        | some c2 => exact ⟨c2, rfl⟩
        | none => exact ⟨_, rfl⟩
      · obtain ⟨c2, hc2⟩ := ih.mpr ⟨e2, he2, hm⟩
        rw [hc2]
        exact ⟨c2, rfl⟩

theorem loop_find (es : List CostElement) (ec : EstimatedCosts) (instrument rto : String) :
    StdMap.find (EstimatedCosts.forInstrument (getEstimatedCostsLoop es ec) instrument) rto =
      (lastCost es instrument rto).or
        (StdMap.find (EstimatedCosts.forInstrument ec instrument) rto) := by
  induction es generalizing ec with
  | nil => rfl
  | cons e es ih =>
    unfold getEstimatedCostsLoop
    simp only []
    rw [ih, lastCost_cons, forInstrument_assign]
    cases lastCost es instrument rto with
    | some c => rfl
    | none =>
      simp only [Option.or]
      by_cases hi : instrument = asString e.Instrument
      · subst hi
        rw [if_pos rfl, find_assign]
        by_cases hr : rto = asString e.RTO
        · subst hr
          simp
        · have hr2 : ¬ asString e.RTO = rto := fun h => hr h.symm
          simp [hr, hr2]
      · have hi2 : ¬ asString e.Instrument = instrument := fun h => hi h.symm
        simp [hi, hi2]

theorem loop_keys (es : List CostElement) (ec : EstimatedCosts) (instrument : String) :
    instrument ∈ StdMap.keys (getEstimatedCostsLoop es ec) ↔
      instrument ∈ StdMap.keys ec ∨ ∃ e ∈ es, asString e.Instrument = instrument := by
  induction es generalizing ec with
  | nil => simp [getEstimatedCostsLoop]
  | cons e es ih =>
    unfold getEstimatedCostsLoop
    simp only []
    rw [ih, mem_keys_assign]
    constructor
    · rintro ((h | h) | ⟨e2, he2, h⟩)
      · exact Or.inr ⟨e, List.mem_cons_self _ _, h.symm⟩
      · exact Or.inl h
      · exact Or.inr ⟨e2, List.mem_cons_of_mem _ he2, h⟩
    · rintro (h | ⟨e2, he2, h⟩)
      · exact Or.inl (Or.inr h)
      · rcases List.mem_cons.mp he2 with he2 | he2
        · subst he2
          exact Or.inl (Or.inl h.symm)
        · exact Or.inr ⟨e2, he2, h⟩

theorem loop_sorted (es : List CostElement) (ec : EstimatedCosts)
    (h : (StdMap.keys ec).Pairwise (· < ·)) :
    (StdMap.keys (getEstimatedCostsLoop es ec)).Pairwise (· < ·) := by
  induction es generalizing ec with
  | nil => exact h
  | cons e es ih =>
    unfold getEstimatedCostsLoop
    exact ih _ (sorted_keys_assign ec _ _ h)

/-! ## Helper lemmas: the checksum field after a fill -/

theorem headerChecksumFill_length (header : List Nat) :
    (headerChecksumFill header).length = header.length := by
  unfold headerChecksumFill
  exact poke_length _ _ _

/-- C1, as the code has it: for every entry name that is non-empty, free of NUL bytes and at
most 99 bytes long and every content shorter than 2^32 bytes, `writeFile` into a fresh
SAVE-mode archive, `close`, reopening in LOAD mode and `readNextFile` return without error,
the read returns the original name and appends exactly the original content to the sink. -/
theorem roundtrip_one_entry (fuel : Nat) (name content sink : List Nat) (now : Nat)
    (hname : name ≠ [] ∧ 0 ∉ name ∧ name.length ≤ 99)
    (hsize : content.length < 2 ^ 32)
    (hfuel : content.length / BUFFER_SIZE + TARHEADER_SIZE ≤ fuel) :
    ((TarFile.open Mode.SAVE [] none).writeFile fuel name
        { rest := content, fault := none } now).2.2 = Outcome.ok () ∧
    ((TarFile.open Mode.SAVE [] none).writeFile fuel name
        { rest := content, fault := none } now).1.close.2 = Outcome.ok () ∧
    (((TarFile.open Mode.SAVE [] none).writeFile fuel name
        { rest := content, fault := none } now).1.close.1.reopen.readNextFile fuel sink).2 =
      (sink ++ content, Outcome.ok name) := by
  have hw := writeFile_healthy fuel [] Mode.SAVE true name content now hsize hfuel
  have hr := readNextFile_entryBytes fuel { name := name, content := content, now := now }
    (List.replicate 1024 0) sink Mode.LOAD true hname hsize
    (Nat.le_of_add_right_le hfuel)
  simp only [TarFile.open, hw, close_healthy, TarFile.reopen, TarFile.written,
    GzFile.written, List.nil_append, hr, and_self]

/-- Witness for C1: the entry `a.txt` holding `hello`. -/
theorem roundtrip_one_entry_witness :
    (ascii "a.txt" ≠ [] ∧ 0 ∉ ascii "a.txt" ∧ (ascii "a.txt").length ≤ 99) ∧
    (ascii "hello").length < 2 ^ 32 ∧
    (ascii "hello").length / BUFFER_SIZE + TARHEADER_SIZE ≤ 512 ∧
    (((TarFile.open Mode.SAVE [] none).writeFile 512 (ascii "a.txt")
        { rest := ascii "hello", fault := none } 0).1.close.1.reopen.readNextFile 512 []).2 =
      ([] ++ ascii "hello", Outcome.ok (ascii "a.txt")) :=
  ⟨by decide, by decide, by decide,
    (roundtrip_one_entry 512 (ascii "a.txt") (ascii "hello") [] 0 (by decide) (by decide)
      (by decide)).2.2⟩

/-- C1 as stated fails at three names. An entry with the empty name and the content `x` is
written without error, but the read reports the end of the archive and leaves the sink
empty. A name of 100 bytes (100 times the letter `a`) comes back with the mode text
`0000644` appended. The name `a`, NUL, `b` comes back as `a`. -/
theorem roundtrip_every_name_counterexample :
    (((TarFile.open Mode.SAVE [] none).writeFile 512 [] { rest := [120], fault := none } 0).2.2 =
        Outcome.ok () ∧
      (((TarFile.open Mode.SAVE [] none).writeFile 512 []
          { rest := [120], fault := none } 0).1.close.1.reopen.readNextFile 512 []).2 =
        ([], Outcome.ok []) ∧
      ([] : List Nat) ≠ [120]) ∧
    ((((TarFile.open Mode.SAVE [] none).writeFile 512 (List.replicate 100 97)
          { rest := [], fault := none } 0).1.close.1.reopen.readNextFile 512 []).2 =
        ([], Outcome.ok (List.replicate 100 97 ++ ascii "0000644")) ∧
      List.replicate 100 97 ++ ascii "0000644" ≠ List.replicate 100 97) ∧
    ((((TarFile.open Mode.SAVE [] none).writeFile 512 [97, 0, 98]
          { rest := [], fault := none } 0).1.close.1.reopen.readNextFile 512 []).2 =
        ([], Outcome.ok [97]) ∧
      [97] ≠ [97, 0, 98]) := by
  set_option maxRecDepth 100000 in decide!

/-- C2: for every finite sequence of entries whose names are non-empty, free of NUL bytes
and at most 99 bytes long and whose contents are shorter than 2^32 bytes, `writeFile` for
each entry in order on a fresh SAVE-mode archive and `close` return without error, and
`readNextFile` called repeatedly on the resulting bytes returns exactly those names with
exactly those contents in the same order; the call after the last entry returns the empty
string and writes nothing to its sink. -/
theorem roundtrip_sequence (fuel : Nat) (es : List Entry)
    (hname : ∀ e ∈ es, e.name ≠ [] ∧ 0 ∉ e.name ∧ e.name.length ≤ 99)
    (hsize : ∀ e ∈ es, e.content.length < 2 ^ 32)
    (hfuel : ∀ e ∈ es, e.content.length / BUFFER_SIZE + TARHEADER_SIZE ≤ fuel) :
    (writeFiles fuel (TarFile.open Mode.SAVE [] none) es).2 = Outcome.ok () ∧
    (writeFiles fuel (TarFile.open Mode.SAVE [] none) es).1.close.2 = Outcome.ok () ∧
    readFiles fuel (es.length + 1)
        (writeFiles fuel (TarFile.open Mode.SAVE [] none) es).1.close.1.reopen =
      es.map (fun e => (Outcome.ok e.name, e.content)) ++ [(Outcome.ok [], [])] := by
  have hw := writeFiles_healthy fuel es [] Mode.SAVE true hsize hfuel
  have hr := readFiles_archive fuel es (List.replicate 512 0) Mode.LOAD true hname hsize
    (fun e he => Nat.le_of_add_right_le (hfuel e he))
  have h1024 : List.replicate 1024 0 = List.replicate 512 0 ++ List.replicate 512 0 := by
    rw [List.append_replicate_replicate]
  simp only [TarFile.open, hw, close_healthy, TarFile.reopen, TarFile.written,
    GzFile.written, List.nil_append, h1024, hr, and_self]

/-- Witness for C2, the scenario of the spec: `a.txt` holding `hello`, then `b.bin` holding
1000 zero bytes, are read back in this order and followed by the end of the archive. -/
theorem roundtrip_sequence_witness :
    (∀ e ∈ scenario, e.name ≠ [] ∧ 0 ∉ e.name ∧ e.name.length ≤ 99) ∧
    (∀ e ∈ scenario, e.content.length < 2 ^ 32) ∧
    (∀ e ∈ scenario, e.content.length / BUFFER_SIZE + TARHEADER_SIZE ≤ 512) ∧
    readFiles 512 3 (writeFiles 512 (TarFile.open Mode.SAVE [] none) scenario).1.close.1.reopen =
      [(Outcome.ok (ascii "a.txt"), ascii "hello"),
       (Outcome.ok (ascii "b.bin"), List.replicate 1000 0),
       (Outcome.ok [], [])] :=
  ⟨by decide, by set_option maxRecDepth 100000 in decide,
    by set_option maxRecDepth 100000 in decide,
    (roundtrip_sequence 512 scenario (by decide)
      (by set_option maxRecDepth 100000 in decide)
      (by set_option maxRecDepth 100000 in decide)).2.2⟩

/-- C3: `close` on a SAVE-mode archive appends exactly 1024 zero bytes (two zero-filled
512-byte blocks) to the bytes already written, whatever they are, and nothing else; this
holds in particular after every sequence of entries written before it. `close` on a
LOAD-mode archive leaves the transport as it is: no byte is written. -/
theorem close_appends_end_marker :
    (∀ (w : List Nat) (o : Bool),
      TarFile.close { file_ := GzFile.wb w none, mode_ := Mode.SAVE, isOpen_ := o } =
        ({ file_ := GzFile.wb (w ++ List.replicate 1024 0) none, mode_ := Mode.SAVE,
           isOpen_ := false }, Outcome.ok ())) ∧
    (∀ (fuel : Nat) (es : List Entry),
      (writeFiles fuel (TarFile.open Mode.SAVE [] none) es).1.close.1.written =
        (writeFiles fuel (TarFile.open Mode.SAVE [] none) es).1.written ++
          List.replicate 1024 0) ∧
    (∀ (file : GzFile) (o : Bool),
      (TarFile.close { file_ := file, mode_ := Mode.LOAD, isOpen_ := o }).1.file_ = file ∧
      (TarFile.close { file_ := file, mode_ := Mode.LOAD, isOpen_ := o }).1.written =
        file.written) := by
  refine ⟨close_healthy, ?_, ?_⟩
  · intro fuel es
    obtain ⟨w2, h2⟩ := writeFiles_unlimited fuel es [] Mode.SAVE true
    simp only [TarFile.open, h2, close_healthy, TarFile.written, GzFile.written]
  · intro file o
    cases file <;> simp [TarFile.close, gzclose, TarFile.written]

/-- C4: for every entry that `writeFile` writes with a content of `s < 2^32` bytes, what
follows the 512-byte header block is the content and then zero bytes only, and the number
of these bytes (the distance to the next header block) is a multiple of 512 and at least
`s`. -/
theorem writeFile_padding_invariant (fuel : Nat) (w : List Nat) (m : Mode) (o : Bool)
    (filename content : List Nat) (now : Nat)
    (hsize : content.length < 2 ^ 32)
    (hfuel : content.length / BUFFER_SIZE + TARHEADER_SIZE ≤ fuel) :
    ∃ pad : Nat,
      (TarFile.writeFile fuel { file_ := GzFile.wb w none, mode_ := m, isOpen_ := o } filename
          { rest := content, fault := none } now).1.written =
        w ++ headerBlock filename content.length now ++ (content ++ List.replicate pad 0) ∧
      (headerBlock filename content.length now).length = 512 ∧
      (content ++ List.replicate pad 0).length % 512 = 0 ∧
      content.length ≤ (content ++ List.replicate pad 0).length := by
  refine ⟨padding content.length, ?_, headerBlock_length _ _ _, ?_, ?_⟩
  · rw [writeFile_healthy fuel w m o filename content now hsize hfuel]
    simp only [TarFile.written, GzFile.written, entryBytes, List.append_assoc]
  · simp only [List.length_append, List.length_replicate, padding]
    omega
  · simp only [List.length_append, List.length_replicate]
    omega

/-- Witness for C4: five bytes written after 512 bytes of earlier output. -/
theorem writeFile_padding_invariant_witness :
    (ascii "hello").length < 2 ^ 32 ∧
    (ascii "hello").length / BUFFER_SIZE + TARHEADER_SIZE ≤ 512 ∧
    ∃ pad : Nat,
      (TarFile.writeFile 512
          { file_ := GzFile.wb (List.replicate 512 1) none, mode_ := Mode.SAVE, isOpen_ := true }
          (ascii "a.txt") { rest := ascii "hello", fault := none } 0).1.written =
        List.replicate 512 1 ++ headerBlock (ascii "a.txt") (ascii "hello").length 0 ++
          (ascii "hello" ++ List.replicate pad 0) ∧
      (headerBlock (ascii "a.txt") (ascii "hello").length 0).length = 512 ∧
      (ascii "hello" ++ List.replicate pad 0).length % 512 = 0 ∧
      (ascii "hello").length ≤ (ascii "hello" ++ List.replicate pad 0).length :=
  ⟨by decide, by decide,
    writeFile_padding_invariant 512 (List.replicate 512 1) Mode.SAVE true (ascii "a.txt")
      (ascii "hello") 0 (by decide) (by decide)⟩

/-- C5: `writeFile` pads minimally. For every content of `s < 2^32` bytes it writes the
header block, the content and exactly `(512 - s mod 512) mod 512` zero bytes; when `s` is
a multiple of 512 nothing follows the content, and when `s = 0` the entry is its 512-byte
header block alone. -/
theorem writeFile_pads_minimally (fuel : Nat) (w : List Nat) (m : Mode) (o : Bool)
    (filename content : List Nat) (now : Nat)
    (hsize : content.length < 2 ^ 32)
    (hfuel : content.length / BUFFER_SIZE + TARHEADER_SIZE ≤ fuel) :
    (TarFile.writeFile fuel { file_ := GzFile.wb w none, mode_ := m, isOpen_ := o } filename
        { rest := content, fault := none } now).1.written =
      w ++ headerBlock filename content.length now ++ content ++
        List.replicate ((512 - content.length % 512) % 512) 0 ∧
    (content.length % 512 = 0 →
      (TarFile.writeFile fuel { file_ := GzFile.wb w none, mode_ := m, isOpen_ := o } filename
          { rest := content, fault := none } now).1.written =
        w ++ headerBlock filename content.length now ++ content) ∧
    (content.length = 0 →
      (TarFile.writeFile fuel { file_ := GzFile.wb w none, mode_ := m, isOpen_ := o } filename
          { rest := content, fault := none } now).1.written =
        w ++ headerBlock filename 0 now ∧
      (TarFile.writeFile fuel { file_ := GzFile.wb w none, mode_ := m, isOpen_ := o } filename
          { rest := content, fault := none } now).1.written.length = w.length + 512) := by
  rw [writeFile_healthy fuel w m o filename content now hsize hfuel]
  simp only [TarFile.written, GzFile.written, entryBytes, padding]
  refine ⟨by simp only [List.append_assoc], ?_, ?_⟩
  · intro h0
    simp [h0]
  · intro h0
    have hc : content = [] := List.length_eq_zero.mp h0
    subst hc
    simp [headerBlock_length]

/-- Witness for C5: an empty content is written as the header block alone. -/
theorem writeFile_pads_minimally_witness :
    ([] : List Nat).length < 2 ^ 32 ∧
    ([] : List Nat).length / BUFFER_SIZE + TARHEADER_SIZE ≤ 512 ∧
    (TarFile.writeFile 512 { file_ := GzFile.wb [] none, mode_ := Mode.SAVE, isOpen_ := true }
        (ascii "empty") { rest := [], fault := none } 0).1.written =
      [] ++ headerBlock (ascii "empty") 0 0 :=
  ⟨by decide, by decide,
    ((writeFile_pads_minimally 512 [] Mode.SAVE true (ascii "empty") [] 0 (by decide)
      (by decide)).2.2 rfl).1⟩

/-- C6: `readNextFile` tells the end of the archive from a damaged one at the header read.
It throws if and only if the header read returns a byte count that is neither 0 nor 512; it
returns the empty string and leaves the sink as it is when the read returns 0 bytes, and
when a full 512-byte block has a NUL as first byte of its name. In particular a transport
that holds between 1 and 511 more bytes (an archive cut off that far behind an entry) makes
the call throw. -/
theorem readNextFile_header_outcomes (fuel : Nat) (tf : TarFile) (sink : List Nat) :
    ((∃ what, (tf.readNextFile fuel sink).2.2 = Outcome.runtime_error what) ↔
      (toUnsigned (gzread tf.file_ TARHEADER_SIZE).2.2 ≠ 0 ∧
        toUnsigned (gzread tf.file_ TARHEADER_SIZE).2.2 ≠ 512)) ∧
    (toUnsigned (gzread tf.file_ TARHEADER_SIZE).2.2 = 0 →
      (tf.readNextFile fuel sink).2 = (sink, Outcome.ok [])) ∧
    (toUnsigned (gzread tf.file_ TARHEADER_SIZE).2.2 = 512 →
      (gzread tf.file_ TARHEADER_SIZE).2.1.head? = some 0 →
      (tf.readNextFile fuel sink).2 = (sink, Outcome.ok [])) ∧
    (∀ unread : List Nat, tf.file_ = GzFile.rb unread → 0 < unread.length →
      unread.length < 512 →
      ∃ what, (tf.readNextFile fuel sink).2 = (sink, Outcome.runtime_error what)) := by
  have key : ∀ n : Nat, n < 512 → toUnsigned (n : Int) = n := fun n hn =>
    toUnsigned_natCast n (lt_trans hn (by norm_num))
  refine ⟨⟨?_, ?_⟩, ?_, ?_, ?_⟩
  · rintro ⟨what, h⟩
    unfold TarFile.readNextFile at h
    simp only [TARHEADER_SIZE] at h ⊢
    by_cases h0 : toUnsigned (gzread tf.file_ 512).2.2 = 0
    · rw [if_pos h0] at h
      simp at h
    · by_cases h512 : toUnsigned (gzread tf.file_ 512).2.2 = 512
      · exfalso
        rw [if_neg h0, if_neg (not_not.mpr h512)] at h
        split_ifs at h
        all_goals first
          | (simp at h; done)
          | (split at h <;> first
              | (simp at h; done)
              | (split_ifs at h
                 first
                  | (simp at h; done)
                  | (split at h <;> simp at h)))
      · exact ⟨h0, h512⟩
  · rintro ⟨h0, h512⟩
    unfold TarFile.readNextFile
    simp only [TARHEADER_SIZE] at h0 h512 ⊢
    rw [if_neg h0, if_pos h512]
    exact ⟨_, rfl⟩
  · intro h0
    unfold TarFile.readNextFile
    simp only [TARHEADER_SIZE] at h0 ⊢
    rw [if_pos h0]
  · intro h512 hhead
    unfold TarFile.readNextFile
    simp only [TARHEADER_SIZE] at h512 hhead ⊢
    rw [if_neg (by rw [h512]; norm_num), if_neg (by rw [h512]; simp), if_pos hhead]
  · intro unread hfile hpos hlt
    have hlen : (unread.take 512).length = unread.length := by
      simp only [List.length_take]; omega
    unfold TarFile.readNextFile
    simp only [TARHEADER_SIZE, hfile, gzread, hlen]
    rw [key _ hlt, if_neg (by omega), if_pos (by omega)]
    exact ⟨_, rfl⟩

/-- Witness for C6: an archive cut off one byte behind an entry; the read that follows the
entry finds a single byte and throws. -/
theorem readNextFile_header_outcomes_witness :
    ∃ what, (TarFile.readNextFile 1
        { file_ := GzFile.rb [0], mode_ := Mode.LOAD, isOpen_ := true } []).2 =
      ([], Outcome.runtime_error what) :=
  (readNextFile_header_outcomes 1 { file_ := GzFile.rb [0], mode_ := Mode.LOAD, isOpen_ := true }
    []).2.2.2 [0] rfl (by decide) (by decide)

/-- C7 at a name of 101 bytes (101 times the letter `a`), which exceeds the 100-byte name
field: `writeHeader_` throws nothing and writes a 512-byte header block, and so does
`writeFile` with an empty content. In the block the first 100 bytes of the name fill the
name field without a terminator and the mode text follows; the last byte of the name is
overwritten and lost. -/
theorem writeHeader_name_too_long :
    (TarFile.writeHeader_ (TarFile.open Mode.SAVE [] none) (List.replicate 101 97) 0 0).2 =
      Outcome.ok () ∧
    (TarFile.writeFile 1 (TarFile.open Mode.SAVE [] none) (List.replicate 101 97)
      { rest := [], fault := none } 0).2.2 = Outcome.ok () ∧
    (TarFile.writeHeader_ (TarFile.open Mode.SAVE [] none)
      (List.replicate 101 97) 0 0).1.written.length = 512 ∧
    slice (TarFile.writeHeader_ (TarFile.open Mode.SAVE [] none)
      (List.replicate 101 97) 0 0).1.written 0 108 =
      List.replicate 100 97 ++ (ascii "0000644" ++ [0]) := by
  set_option maxRecDepth 100000 in decide!

/-- C8 at two archives that end before the announced content. A header that announces five
bytes for `a.txt` and is followed by two bytes only: `readNextFile` throws nothing, writes
the two bytes to the sink and returns the name. A header that announces 40000 bytes and is
followed by nothing: the chunk loop never ends, whatever the fuel, and no error is raised. -/
theorem readNextFile_short_content :
    TarFile.readNextFile 1
        { file_ := GzFile.rb (headerBlock (ascii "a.txt") 5 0 ++ [104, 101]),
          mode_ := Mode.LOAD, isOpen_ := true } [] =
      ({ file_ := GzFile.rb [], mode_ := Mode.LOAD, isOpen_ := true }, [104, 101],
        Outcome.ok (ascii "a.txt")) ∧
    ∀ fuel : Nat,
      (TarFile.readNextFile fuel
        { file_ := GzFile.rb (headerBlock (ascii "a.txt") 40000 0),
          mode_ := Mode.LOAD, isOpen_ := true } []).2.2 = Outcome.hang := by
  constructor
  · set_option maxRecDepth 100000 in decide!
  · intro fuel
    have hH := headerBlock_length (ascii "a.txt") 40000 0
    have htake : (headerBlock (ascii "a.txt") 40000 0).take TARHEADER_SIZE =
        headerBlock (ascii "a.txt") 40000 0 := List.take_of_length_le (by rw [hH]; decide)
    have hdrop : (headerBlock (ascii "a.txt") 40000 0).drop TARHEADER_SIZE = [] :=
      List.drop_of_length_le (by rw [hH]; decide)
    have h512 : toUnsigned (((headerBlock (ascii "a.txt") 40000 0).length : Nat) : Int) = 512 := by
      rw [toUnsigned_natCast _ (by rw [hH]; norm_num), hH]
    have hhead := headerBlock_head (ascii "a.txt") 40000 0 (by decide) (by decide) (by decide)
    have hscan := headerBlock_sscanf (ascii "a.txt") 40000 0 (by norm_num)
    generalize headerBlock (ascii "a.txt") 40000 0 = H at hH htake hdrop h512 hhead hscan
    unfold TarFile.readNextFile
    simp only [gzread, htake, hdrop, h512, hscan]
    rw [if_neg (by norm_num), if_neg (by simp [TARHEADER_SIZE]), if_neg hhead,
      if_neg (by norm_num), if_neg (by norm_num),
      readLoop_exhausted fuel [] _ (by simp [BUFFER_SIZE])]

/-- C9: for every NUL-free name of at most 99 bytes, every size below `8^11` and every
modification time below `8^11`, the header that `writeHeader_` emits is 512 bytes in the
legacy ustar order: the name at offset 0 followed by NUL bytes up to offset 100, the mode
`0000644` and a NUL at offset 100, the size as 11 octal digits and a NUL at offset 124, the
time as 11 octal digits and a NUL at offset 136, the type flag 0 at offset 156, the magic
`ustar` and a NUL at offset 257, two spaces at offset 263, and zero in every byte outside
these fields and the checksum field (offsets 108 to 123, 157 to 256, 265 to 511). -/
theorem headerBlock_layout (filename : List Nat) (size now : Nat)
    (h0 : 0 ∉ filename) (hlen : filename.length ≤ 99) (hbytes : ∀ b ∈ filename, b < 256)
    (hsize : size < 8 ^ 11) (hnow : now < 8 ^ 11) :
    (headerBlock filename size now).length = 512 ∧
    slice (headerBlock filename size now) 0 100 =
      filename ++ List.replicate (100 - filename.length) 0 ∧
    slice (headerBlock filename size now) 100 8 = ascii "0000644" ++ [0] ∧
    slice (headerBlock filename size now) 108 16 = List.replicate 16 0 ∧
    slice (headerBlock filename size now) 124 12 = octFixed 11 size ++ [0] ∧
    slice (headerBlock filename size now) 136 12 = octFixed 11 now ++ [0] ∧
    slice (headerBlock filename size now) 156 1 = [0] ∧
    slice (headerBlock filename size now) 157 100 = List.replicate 100 0 ∧
    slice (headerBlock filename size now) 257 6 = ascii "ustar" ++ [0] ∧
    slice (headerBlock filename size now) 263 2 = ascii "  " ∧
    slice (headerBlock filename size now) 265 247 = List.replicate 247 0 := by
  have hname := headerBlock_name filename size now (by rw [cstr_eq_self filename h0]; exact hlen)
  rw [cstr_eq_self filename h0] at hname
  obtain ⟨c, hc⟩ := headerBlock_layers filename size now h0 hbytes hsize hnow
  refine ⟨headerBlock_length _ _ _, ?_, ?_, ?_, headerBlock_size filename size now hsize,
    ?_, ?_, ?_, ?_, ?_, ?_⟩
  · rw [hname]
    have : 100 - filename.length = (99 - filename.length) + 1 := by omega
    rw [this, List.replicate_succ]
  all_goals rw [hc]
  all_goals repeat rw [slice_poke_disjoint _ _ _ _ _ (by
    simp only [List.length_append, List.length_cons, List.length_nil, octFixed_length]
    omega)]
  · exact slice_poke_exact _ _ _ _ rfl (by simp only [poke_length, List.length_replicate]; decide)
  · exact slice_replicate _ _ _ _ (by decide)
  · exact slice_poke_exact _ _ _ _ (by simp [octFixed_length])
      (by simp only [poke_length, List.length_replicate]; decide)
  · exact slice_poke_exact _ _ _ _ rfl (by simp only [poke_length, List.length_replicate]; decide)
  · exact slice_replicate _ _ _ _ (by decide)
  · exact slice_poke_exact _ _ _ _ rfl (by simp only [poke_length, List.length_replicate]; decide)
  · exact slice_poke_exact _ _ _ _ rfl (by simp only [poke_length, List.length_replicate]; decide)
  · exact slice_replicate _ _ _ _ (by decide)

/-- Witness for C9: the header block of `a.txt` with five bytes of content. -/
theorem headerBlock_layout_witness :
    0 ∉ ascii "a.txt" ∧ (ascii "a.txt").length ≤ 99 ∧ (∀ b ∈ ascii "a.txt", b < 256) ∧
    5 < 8 ^ 11 ∧ 1469000000 < 8 ^ 11 ∧
    slice (headerBlock (ascii "a.txt") 5 1469000000) 124 12 = octFixed 11 5 ++ [0] ∧
    slice (headerBlock (ascii "a.txt") 5 1469000000) 257 6 = ascii "ustar" ++ [0] :=
  ⟨by decide, by decide, by decide, by decide, by decide,
    (headerBlock_layout (ascii "a.txt") 5 1469000000 (by decide) (by decide) (by decide)
      (by decide) (by decide)).2.2.2.2.1,
    (headerBlock_layout (ascii "a.txt") 5 1469000000 (by decide) (by decide) (by decide)
      (by decide) (by decide)).2.2.2.2.2.2.2.2.1⟩

/-- C10: in every header block that `writeHeader_` emits, the checksum field holds six octal
digits and a NUL, and the number the digits spell is the sum of all 512 bytes of that final
block with each of the 8 bytes of the checksum field counted as a space (0x20); this is the
value of `headerChecksum` on the block, it is below `8^6`, and it stays the same whatever
8 bytes the checksum field holds when it is computed. -/
theorem headerBlock_checksum (filename : List Nat) (size now : Nat)
    (hbytes : ∀ b ∈ filename, b < 256) :
    slice (headerBlock filename size now) 148 7 =
      octFixed 6 (((headerBlock filename size now).take 148).sum + 8 * 32 +
        ((headerBlock filename size now).drop 156).sum) ++ [0] ∧
    octValue (slice (headerBlock filename size now) 148 6) =
      ((headerBlock filename size now).take 148).sum + 8 * 32 +
        ((headerBlock filename size now).drop 156).sum ∧
    ((headerBlock filename size now).take 148).sum + 8 * 32 +
        ((headerBlock filename size now).drop 156).sum < 8 ^ 6 ∧
    headerChecksum (headerBlock filename size now) =
      ((headerBlock filename size now).take 148).sum + 8 * 32 +
        ((headerBlock filename size now).drop 156).sum ∧
    ∀ junk : List Nat, junk.length = 8 →
      headerChecksum (poke (headerFields filename size now) CHECKSUM_OFFSET junk) =
        headerChecksum (headerBlock filename size now) := by
  have hsum := headerChecksum_eq (headerBlock filename size now) (headerBlock_length _ _ _)
  have hfield := headerBlock_checksum_field filename size now hbytes
  have hsame := headerChecksum_headerBlock filename size now hbytes
  have hle := headerChecksum_le _ (headerFields_length filename size now)
    (headerFields_bytes filename size now hbytes)
  have hlt : headerChecksum (headerBlock filename size now) < 8 ^ 6 := by
    rw [hsame]
    exact lt_of_le_of_lt hle (by norm_num)
  have hsix : slice (headerBlock filename size now) 148 6 =
      octFixed 6 (headerChecksum (headerBlock filename size now)) := by
    have hsplit := slice_add (headerBlock filename size now) 148 6 1
    rw [hfield] at hsplit
    exact ((List.append_inj hsplit (by
      rw [octFixed_length, slice_length _ _ _ (by rw [headerBlock_length]; decide)])).1).symm
  rw [← hsum]
  refine ⟨hfield, ?_, hlt, rfl, ?_⟩
  · rw [hsix, octValue_octFixed, Nat.mod_eq_of_lt hlt]
  · intro junk hjunk
    rw [hsame]
    exact headerChecksum_poke _ _ (headerFields_length _ _ _) (le_of_eq hjunk)

/-- Witness for C10: the header block of `a.txt` with five bytes of content. -/
theorem headerBlock_checksum_witness :
    (∀ b ∈ ascii "a.txt", b < 256) ∧
    octValue (slice (headerBlock (ascii "a.txt") 5 1469000000) 148 6) =
      ((headerBlock (ascii "a.txt") 5 1469000000).take 148).sum + 8 * 32 +
        ((headerBlock (ascii "a.txt") 5 1469000000).drop 156).sum :=
  ⟨by decide, (headerBlock_checksum (ascii "a.txt") 5 1469000000 (by decide)).2.1⟩

/-- C11: for every size below `8^11` the text `writeHeader_` prints into the size field is
exactly 11 octal digits, zero-padded, and with its NUL it fills the 12 bytes of the field:
in the emitted block the field holds the digits and the NUL, and the `sprintf` leaves every
byte before offset 124 and from offset 136 on as it was. Scanning the field the way
`readNextFile` does (`%011llo`) yields the original size. -/
theorem size_field_roundtrip (filename : List Nat) (size now : Nat) (hsize : size < 8 ^ 11) :
    printfOctal 64 11 size = octFixed 11 size ∧
    (octFixed 11 size).length = 11 ∧
    (∀ d ∈ octFixed 11 size, 48 ≤ d ∧ d ≤ 55) ∧
    octValue (octFixed 11 size) = size ∧
    slice (headerBlock filename size now) 124 12 = octFixed 11 size ++ [0] ∧
    (∀ buf : List Nat, buf.length = 512 →
      slice (sprintf buf SIZE_OFFSET (printfOctal 64 11 size)) 0 124 = slice buf 0 124 ∧
      (sprintf buf SIZE_OFFSET (printfOctal 64 11 size)).drop 136 = buf.drop 136) ∧
    sscanfOctal 11 ((headerBlock filename size now).drop SIZE_OFFSET) = some (size : Int) ∧
    sscanfOctal 11 (slice (headerBlock filename size now) 124 12) = some (size : Int) := by
  have htext : printfOctal 64 11 size = octFixed 11 size :=
    printfOctal_eq 64 11 size (by norm_num) hsize (lt_trans hsize (by norm_num))
  have hfield := headerBlock_size filename size now hsize
  refine ⟨htext, octFixed_length 11 size, fun d hd => octFixed_digit 11 size d hd, ?_, hfield,
    ?_, headerBlock_sscanf filename size now hsize, ?_⟩
  · rw [octValue_octFixed, Nat.mod_eq_of_lt hsize]
  · intro buf hbuf
    rw [htext]
    unfold sprintf SIZE_OFFSET
    constructor
    · exact slice_poke_before _ _ _ _ _ (by decide)
    · have h := slice_poke_after buf 124 (octFixed 11 size ++ [0]) 136 376 (by
        simp only [List.length_append, octFixed_length, List.length_singleton]
        omega)
      unfold slice at h
      rw [List.take_of_length_le (by simp only [List.length_drop, poke_length, hbuf]; omega),
        List.take_of_length_le (by simp only [List.length_drop, hbuf]; omega)] at h
      exact h
  · rw [hfield, sscanfOctal_digits 11 (octFixed 11 size) [0] (octFixed_length 11 size)
      (by norm_num) (fun d hd => octFixed_digit 11 size d hd), octValue_octFixed,
      Nat.mod_eq_of_lt hsize]

/-- Witness for C11: the size 1000 is printed as `00000001750` and scanned back. -/
theorem size_field_roundtrip_witness :
    1000 < 8 ^ 11 ∧
    printfOctal 64 11 1000 = octFixed 11 1000 ∧
    sscanfOctal 11 ((headerBlock (ascii "b.bin") 1000 0).drop SIZE_OFFSET) =
      some ((1000 : Nat) : Int) :=
  ⟨by decide, (size_field_roundtrip (ascii "b.bin") 1000 0 (by decide)).1,
    (size_field_roundtrip (ascii "b.bin") 1000 0 (by decide)).2.2.2.2.2.2.1⟩

/-- C13: for every well-formed entry, a full 512-byte header block whose name is not empty
and whose size field announces `s`, followed by `s` content bytes and zero bytes up to the
next multiple of 512, `readNextFile` returns the name, appends exactly the `s` content
bytes to the sink in order and consumes exactly `512 + s + (512 - s mod 512) mod 512`
bytes, so that the transport stands at the next header block. This holds for every `s`,
also above the chunk size 32768; for `s = 0` exactly 512 bytes are consumed and the sink
is left as it is. -/
theorem readNextFile_well_formed (fuel : Nat) (H content rest sink : List Nat) (m : Mode)
    (o : Bool) (hH : H.length = 512) (hname : H.head? ≠ some 0)
    (hsize : sscanfOctal 11 (H.drop SIZE_OFFSET) = some (content.length : Int))
    (hfuel : content.length / BUFFER_SIZE ≤ fuel) :
    TarFile.readNextFile fuel
        { file_ := GzFile.rb
            (H ++ (content ++ (List.replicate ((512 - content.length % 512) % 512) 0 ++ rest))),
          mode_ := m, isOpen_ := o } sink =
      ({ file_ := GzFile.rb rest, mode_ := m, isOpen_ := o }, sink ++ content,
        Outcome.ok (cstr H)) ∧
    (H ++ (content ++ (List.replicate ((512 - content.length % 512) % 512) 0 ++ rest))).length -
        rest.length = 512 + content.length + (512 - content.length % 512) % 512 ∧
    (content.length = 0 →
      TarFile.readNextFile fuel { file_ := GzFile.rb (H ++ rest), mode_ := m, isOpen_ := o }
          sink =
        ({ file_ := GzFile.rb rest, mode_ := m, isOpen_ := o }, sink, Outcome.ok (cstr H)) ∧
      (H ++ rest).length - rest.length = 512) := by
  have h := readNextFile_entry fuel H content rest sink m o hH hname hsize hfuel
  unfold padding at h
  refine ⟨h, ?_, ?_⟩
  · simp only [List.length_append, List.length_replicate, hH]
    omega
  · intro h0
    have hc : content = [] := List.length_eq_zero.mp h0
    subst hc
    refine ⟨?_, ?_⟩
    · simpa using h
    · simp only [List.length_append, hH]
      omega

/-- Witness for C13: an entry of 40000 bytes, more than one chunk. -/
theorem readNextFile_well_formed_witness :
    (headerBlock (ascii "big.bin") 40000 0).length = 512 ∧
    (headerBlock (ascii "big.bin") 40000 0).head? ≠ some 0 ∧
    sscanfOctal 11 ((headerBlock (ascii "big.bin") 40000 0).drop SIZE_OFFSET) =
      some ((List.replicate 40000 7).length : Int) ∧
    (List.replicate 40000 7).length / BUFFER_SIZE ≤ 1 ∧
    TarFile.readNextFile 1
        { file_ := GzFile.rb
            (headerBlock (ascii "big.bin") 40000 0 ++ (List.replicate 40000 7 ++
              (List.replicate ((512 - (List.replicate 40000 7).length % 512) % 512) 0 ++ []))),
          mode_ := Mode.LOAD, isOpen_ := true } [] =
      ({ file_ := GzFile.rb [], mode_ := Mode.LOAD, isOpen_ := true },
        [] ++ List.replicate 40000 7,
        Outcome.ok (cstr (headerBlock (ascii "big.bin") 40000 0))) :=
  ⟨headerBlock_length _ _ _,
    headerBlock_head _ _ _ (by decide) (by decide) (by decide),
    by rw [List.length_replicate]; exact headerBlock_sscanf _ _ _ (by norm_num),
    by rw [List.length_replicate]; decide,
    (readNextFile_well_formed 1 (headerBlock (ascii "big.bin") 40000 0)
      (List.replicate 40000 7) [] [] Mode.LOAD true (headerBlock_length _ _ _)
      (headerBlock_head _ _ _ (by decide) (by decide) (by decide))
      (by rw [List.length_replicate]; exact headerBlock_sscanf _ _ _ (by norm_num))
      (by rw [List.length_replicate]; decide)).1⟩

/-- C14: `writeFile` on a content of less than 2^32 bytes, with enough fuel for its loops.
When the transport takes the header block but fills up before the content is through, the
chunk write that comes back short makes `writeFile` throw, and what was written ends with
the whole chunks that went through: no padding follows. When the source breaks (a read
failure that is not the end of the data) before the content is through, the loop stops
short of the measured size, `writeFile` throws, and again only the header block and the
chunks read before are written. When every read and every write succeeds in full,
`writeFile` returns without error. -/
theorem writeFile_errors (fuel : Nat) (w : List Nat) (m : Mode) (o : Bool)
    (filename content : List Nat) (now : Nat)
    (hsize : content.length < 2 ^ 32)
    (hfuel : content.length / BUFFER_SIZE + TARHEADER_SIZE ≤ fuel) :
    (∀ room : Nat, 512 ≤ room → room < 512 + content.length →
      (TarFile.writeFile fuel { file_ := GzFile.wb w (some room), mode_ := m, isOpen_ := o }
          filename { rest := content, fault := none } now).2.2 =
        Outcome.runtime_error "Problem writing data for " ∧
      (TarFile.writeFile fuel { file_ := GzFile.wb w (some room), mode_ := m, isOpen_ := o }
          filename { rest := content, fault := none } now).1.written =
        w ++ headerBlock filename content.length now ++
          content.take ((room - 512) / BUFFER_SIZE * BUFFER_SIZE)) ∧
    (∀ k : Nat, k < content.length →
      (TarFile.writeFile fuel { file_ := GzFile.wb w none, mode_ := m, isOpen_ := o }
          filename { rest := content, fault := some k } now).2.2 =
        Outcome.runtime_error "Number of total bytes written != size." ∧
      (TarFile.writeFile fuel { file_ := GzFile.wb w none, mode_ := m, isOpen_ := o }
          filename { rest := content, fault := some k } now).1.written =
        w ++ headerBlock filename content.length now ++
          content.take (k / BUFFER_SIZE * BUFFER_SIZE)) ∧
    (TarFile.writeFile fuel { file_ := GzFile.wb w none, mode_ := m, isOpen_ := o }
        filename { rest := content, fault := none } now).2.2 = Outcome.ok () := by
  have hf : content.length / BUFFER_SIZE + 1 ≤ fuel := by
    unfold TARHEADER_SIZE at hfuel
    omega
  refine ⟨?_, ?_, ?_⟩
  · intro room hroom hshort
    obtain ⟨h1, h2⟩ := copyLoop_short_write fuel (w ++ headerBlock filename content.length now)
      content content.length 0 (room - 512) (by simp) hsize (by omega) hf
    simp only [TarFile.writeFile, TarFile.writeHeader_, IStream.measure, gzwrite,
      headerBlock_length, hroom, if_true, TARHEADER_SIZE, ne_eq, not_true_eq_false, if_false]
    rcases hc : copyLoop fuel (.wb (w ++ headerBlock filename content.length now)
      (some (room - 512))) { rest := content, fault := none } content.length 0 with
      ⟨file2, src2, res⟩
    rw [hc] at h1 h2
    simp only at h1 h2
    subst h1 h2
    simp only [TarFile.written, GzFile.written, and_self]
  · intro k hk
    obtain ⟨h1, h2⟩ := copyLoop_read_fault fuel (w ++ headerBlock filename content.length now)
      content content.length 0 k (by simp) hsize hk hf
    have hne : ¬ (0 + k / BUFFER_SIZE * BUFFER_SIZE = content.length) := by
      have := Nat.div_mul_le_self k BUFFER_SIZE
      omega
    simp only [TarFile.writeFile, TarFile.writeHeader_, IStream.measure, gzwrite,
      headerBlock_length, TARHEADER_SIZE, ne_eq, not_true_eq_false, if_false]
    rcases hc : copyLoop fuel (.wb (w ++ headerBlock filename content.length now) none)
      { rest := content, fault := some k } content.length 0 with ⟨file2, src2, res⟩
    rw [hc] at h1 h2
    simp only at h1 h2
    subst h1 h2
    simp only [hne, not_false_eq_true, if_true, TarFile.written, GzFile.written, and_self]
  · rw [writeFile_healthy fuel w m o filename content now hsize hfuel]

/-- Witness for C14: the five bytes of `hello` on a transport with room for the header block
and two more bytes, and on a source that breaks after two bytes. -/
theorem writeFile_errors_witness :
    (ascii "hello").length < 2 ^ 32 ∧
    (ascii "hello").length / BUFFER_SIZE + TARHEADER_SIZE ≤ 512 ∧
    512 ≤ 514 ∧ 514 < 512 + (ascii "hello").length ∧ 2 < (ascii "hello").length ∧
    (TarFile.writeFile 512
        { file_ := GzFile.wb [] (some 514), mode_ := Mode.SAVE, isOpen_ := true }
        (ascii "a.txt") { rest := ascii "hello", fault := none } 0).2.2 =
      Outcome.runtime_error "Problem writing data for " ∧
    (TarFile.writeFile 512
        { file_ := GzFile.wb [] none, mode_ := Mode.SAVE, isOpen_ := true }
        (ascii "a.txt") { rest := ascii "hello", fault := some 2 } 0).2.2 =
      Outcome.runtime_error "Number of total bytes written != size." :=
  ⟨by decide, by decide, by decide, by decide, by decide,
    ((writeFile_errors 512 [] Mode.SAVE true (ascii "a.txt") (ascii "hello") 0 (by decide)
      (by decide)).1 514 (by decide) (by decide)).1,
    ((writeFile_errors 512 [] Mode.SAVE true (ascii "a.txt") (ascii "hello") 0 (by decide)
      (by decide)).2.1 2 (by decide)).1⟩

/-- C15: for every 512-byte block of bytes the checksum sum, all bytes as unsigned values
with the 8 bytes of the checksum field counted as spaces, is at most
`504 * 255 + 8 * 32 = 128776`, which is below `8^6` (the block of 512 bytes 255 reaches
it). Its `%06o` text is therefore exactly six octal digits, and the `sprintf` of
`writeHeader_`, text and NUL, changes no byte before offset 148 and none from offset 155
on: it stays inside the checksum field. -/
theorem checksum_six_digits (header : List Nat) (hlen : header.length = 512)
    (hbytes : ∀ b ∈ header, b < 256) :
    headerChecksum header ≤ 504 * 255 + 8 * 32 ∧
    504 * 255 + 8 * 32 = 128776 ∧ 128776 < 8 ^ 6 ∧
    headerChecksum (List.replicate 512 255) = 128776 ∧
    printfOctal 32 6 (headerChecksum header) = octFixed 6 (headerChecksum header) ∧
    (printfOctal 32 6 (headerChecksum header)).length = 6 ∧
    (∀ d ∈ printfOctal 32 6 (headerChecksum header), 48 ≤ d ∧ d ≤ 55) ∧
    slice (sprintf header CHECKSUM_OFFSET (printfOctal 32 6 (headerChecksum header))) 0 148 =
      slice header 0 148 ∧
    (sprintf header CHECKSUM_OFFSET (printfOctal 32 6 (headerChecksum header))).drop 155 =
      header.drop 155 := by
  have hle := headerChecksum_le header hlen hbytes
  have htext : printfOctal 32 6 (headerChecksum header) = octFixed 6 (headerChecksum header) :=
    printfOctal_eq 32 6 _ (by norm_num) (by omega) (by omega)
  have hmax : headerChecksum (List.replicate 512 255) = 128776 := by
    rw [headerChecksum_eq _ (List.length_replicate _ _)]
    simp only [List.take_replicate, List.drop_replicate, List.sum_replicate, smul_eq_mul]
    decide
  refine ⟨by omega, by norm_num, by norm_num, hmax, htext, ?_, ?_, ?_, ?_⟩
  · rw [htext, octFixed_length]
  · intro d hd
    exact printfOctal_digit 32 6 _ d hd
  · unfold sprintf
    exact slice_poke_before _ _ _ _ _ (by decide)
  · rw [htext]
    unfold sprintf CHECKSUM_OFFSET
    have h := slice_poke_after header 148 (octFixed 6 (headerChecksum header) ++ [0]) 155 357
      (by
        simp only [List.length_append, octFixed_length, List.length_singleton]
        omega)
    unfold slice at h
    rw [List.take_of_length_le (by simp only [List.length_drop, poke_length, hlen]; omega),
      List.take_of_length_le (by simp only [List.length_drop, hlen]; omega)] at h
    exact h

/-- Witness for C15: the block of 512 bytes 255, whose sum is the bound itself. -/
theorem checksum_six_digits_witness :
    (List.replicate 512 255).length = 512 ∧ (∀ b ∈ List.replicate 512 255, b < 256) ∧
    headerChecksum (List.replicate 512 255) ≤ 504 * 255 + 8 * 32 ∧
    (printfOctal 32 6 (headerChecksum (List.replicate 512 255))).length = 6 :=
  ⟨List.length_replicate _ _, fun b hb => by rw [List.eq_of_mem_replicate hb]; decide,
    (checksum_six_digits (List.replicate 512 255) (List.length_replicate _ _)
      (fun b hb => by rw [List.eq_of_mem_replicate hb]; decide)).1,
    (checksum_six_digits (List.replicate 512 255) (List.length_replicate _ _)
      (fun b hb => by rw [List.eq_of_mem_replicate hb]; decide)).2.2.2.2.2.1⟩

/-- C16: `EstimatedCosts::getMaximumCost(RTO)` throws `invalid_argument` if and only if at
least one instrument of the map has no cost for that RTO. Otherwise it returns a value
that is at least 0.0 and at least every instrument's cost for the RTO, and that is 0.0 or
the cost of one of the instruments: the larger of 0.0 and the maximum of the costs. For
the empty map it returns 0.0, and so it does when every cost is negative. -/
theorem getMaximumCost_spec (ec : EstimatedCosts) (rto : String) :
    ((∃ what, EstimatedCosts.getMaximumCost ec rto = .error (.invalid_argument what)) ↔
      ∃ p ∈ ec, StdMap.find p.2 rto = none) ∧
    ((∀ p ∈ ec, StdMap.find p.2 rto ≠ none) →
      ∃ v, EstimatedCosts.getMaximumCost ec rto = .ok v ∧ 0 ≤ v ∧
        (∀ p ∈ ec, ∀ c, StdMap.find p.2 rto = some c → c ≤ v) ∧
        (v = 0 ∨ ∃ p ∈ ec, StdMap.find p.2 rto = some v)) ∧
    EstimatedCosts.getMaximumCost [] rto = .ok 0 ∧
    ((∀ p ∈ ec, ∃ c, StdMap.find p.2 rto = some c ∧ c < 0) →
      EstimatedCosts.getMaximumCost ec rto = .ok 0) := by
  refine ⟨⟨?_, ?_⟩, ?_, rfl, ?_⟩
  · rintro ⟨what, hw⟩
    by_contra hno
    have hall : ∀ p ∈ ec, ∃ c, StdMap.find p.2 rto = some c := by
      intro p hp
      cases hf : StdMap.find p.2 rto with
      | none => exact absurd ⟨p, hp, hf⟩ hno
      | some c => exact ⟨c, rfl⟩
    obtain ⟨v, hv, _⟩ := getMaximumCostLoop_present ec rto 0 hall
    unfold EstimatedCosts.getMaximumCost at hw
    rw [hv] at hw
    exact absurd hw (by simp)
  · intro h
    exact ⟨_, getMaximumCostLoop_missing ec rto 0 h⟩
  · intro hall
    exact getMaximumCostLoop_present ec rto 0 (fun p hp =>
      Option.ne_none_iff_exists'.mp (hall p hp))
  · intro hneg
    obtain ⟨v, hv, hge, _, hor⟩ := getMaximumCostLoop_present ec rto 0
      (fun p hp => (hneg p hp).imp fun c hc => hc.1)
    unfold EstimatedCosts.getMaximumCost
    rw [hv]
    rcases hor with hor | ⟨p, hp, hpv⟩
    · rw [hor]
    · obtain ⟨c, hc, hlt⟩ := hneg p hp
      rw [hpv] at hc
      have : v = c := Option.some.inj hc
      rw [this] at hge
      exact absurd hge (not_le.mpr hlt)

/-- Witness for C16: the costs of the example response; for `RTO-24` the maximum is the
cost 36.22 of the Orbitrap, for an RTO that no instrument has the call throws. -/
theorem getMaximumCost_spec_witness :
    (∀ p ∈ getEstimatedCostsLoop EXAMPLE_RESPONSE [], StdMap.find p.2 "RTO-24" ≠ none) ∧
    (∃ v, EstimatedCosts.getMaximumCost (getEstimatedCostsLoop EXAMPLE_RESPONSE []) "RTO-24" =
        .ok v ∧ 0 ≤ v ∧
      (∀ p ∈ getEstimatedCostsLoop EXAMPLE_RESPONSE [],
        ∀ c, StdMap.find p.2 "RTO-24" = some c → c ≤ v) ∧
      (v = 0 ∨ ∃ p ∈ getEstimatedCostsLoop EXAMPLE_RESPONSE [],
        StdMap.find p.2 "RTO-24" = some v)) ∧
    EstimatedCosts.getMaximumCost (getEstimatedCostsLoop EXAMPLE_RESPONSE []) "RTO-24" =
      .ok 36.22 ∧
    EstimatedCosts.getMaximumCost (getEstimatedCostsLoop EXAMPLE_RESPONSE []) "RTO-0" =
      .error (.invalid_argument "The following RTO was not found: RTO-0") :=
  ⟨by decide!,
    (getMaximumCost_spec (getEstimatedCostsLoop EXAMPLE_RESPONSE []) "RTO-24").2.1 (by decide!),
    by decide!, by decide!⟩

/-- C17: when no costs are cached and the response is ready, `getEstimatedCosts` returns,
and caches, a map that groups the elements of the `"EstimatedCost"` array by instrument.
For every instrument and RTO the cost found under them is the cost of the last array
element with that instrument and RTO, and nothing is found when the array has no such
element; in particular `getCost` answers for every element of the array. `getInstruments`
lists exactly the instruments of the array, in ascending order and each once; the RTOs
of an instrument are exactly those the array gives it; `forInstrument` of an instrument
that is not in the array is the empty map. -/
theorem getEstimatedCosts_groups (action : InitAction) (hready : action.isReady = true)
    (hcache : action.estimated_costs_ = []) :
    ∃ ec : EstimatedCosts,
      action.getEstimatedCosts.2 = .ok ec ∧
      action.getEstimatedCosts.1.estimated_costs_ = ec ∧
      (∀ instrument rto,
        StdMap.find (EstimatedCosts.forInstrument ec instrument) rto =
          lastCost action.EstimatedCost instrument rto) ∧
      (∀ e ∈ action.EstimatedCost, ∃ c,
        lastCost action.EstimatedCost (asString e.Instrument) (asString e.RTO) = some c ∧
        ResponseTimeCosts.getCost (EstimatedCosts.forInstrument ec (asString e.Instrument))
          (asString e.RTO) = .ok c) ∧
      (∀ instrument, instrument ∈ EstimatedCosts.getInstruments ec ↔
        ∃ e ∈ action.EstimatedCost, asString e.Instrument = instrument) ∧
      (EstimatedCosts.getInstruments ec).Pairwise (· < ·) ∧
      (EstimatedCosts.getInstruments ec).Nodup ∧
      (∀ instrument rto,
        rto ∈ ResponseTimeCosts.getRTOs (EstimatedCosts.forInstrument ec instrument) ↔
          ∃ e ∈ action.EstimatedCost,
            asString e.Instrument = instrument ∧ asString e.RTO = rto) ∧
      (∀ instrument, (∀ e ∈ action.EstimatedCost, asString e.Instrument ≠ instrument) →
        EstimatedCosts.forInstrument ec instrument = []) := by
  have hfind : ∀ instrument rto,
      StdMap.find (EstimatedCosts.forInstrument
        (getEstimatedCostsLoop action.EstimatedCost []) instrument) rto =
        lastCost action.EstimatedCost instrument rto := by
    intro instrument rto
    rw [loop_find]
    cases lastCost action.EstimatedCost instrument rto <;> rfl
  have hkeys : ∀ instrument,
      instrument ∈ EstimatedCosts.getInstruments
        (getEstimatedCostsLoop action.EstimatedCost []) ↔
        ∃ e ∈ action.EstimatedCost, asString e.Instrument = instrument := by
    intro instrument
    unfold EstimatedCosts.getInstruments
    rw [loop_keys]
    simp [StdMap.keys]
  have hsorted : (EstimatedCosts.getInstruments
      (getEstimatedCostsLoop action.EstimatedCost [])).Pairwise (· < ·) :=
    loop_sorted action.EstimatedCost [] List.Pairwise.nil
  refine ⟨getEstimatedCostsLoop action.EstimatedCost [], ?_, ?_, hfind, ?_, hkeys, hsorted,
    hsorted.imp (fun h => ne_of_lt h), ?_, ?_⟩
  · simp [InitAction.getEstimatedCosts, InitAction.preCheck, hready, hcache]
  · simp [InitAction.getEstimatedCosts, InitAction.preCheck, hready, hcache]
  · intro e he
    obtain ⟨c, hc⟩ := (lastCost_isSome action.EstimatedCost (asString e.Instrument)
      (asString e.RTO)).mpr ⟨e, he, rfl, rfl⟩
    exact ⟨c, hc, getCost_eq _ _ c (by rw [hfind, hc])⟩
  · intro instrument rto
    unfold ResponseTimeCosts.getRTOs
    rw [mem_keys_iff_find]
    simp only [hfind]
    exact lastCost_isSome action.EstimatedCost instrument rto
  · intro instrument habsent
    apply forInstrument_absent
    rw [hkeys]
    rintro ⟨e, he, hi⟩
    exact habsent e he hi

/-- Witness for C17: the example response. Its three elements give three instruments, each
with its cost for `RTO-24`: TOF 27.60, Orbitrap 36.22, IonTrap 32.59. -/
theorem getEstimatedCosts_groups_witness :
    (InitAction.mk true EXAMPLE_RESPONSE []).isReady = true ∧
    (InitAction.mk true EXAMPLE_RESPONSE []).estimated_costs_ = [] ∧
    (∃ ec : EstimatedCosts,
      (InitAction.mk true EXAMPLE_RESPONSE []).getEstimatedCosts.2 = .ok ec ∧
      (∀ instrument rto,
        StdMap.find (EstimatedCosts.forInstrument ec instrument) rto =
          lastCost EXAMPLE_RESPONSE instrument rto)) ∧
    (InitAction.mk true EXAMPLE_RESPONSE []).getEstimatedCosts.2 =
      .ok [("IonTrap", [("RTO-24", 32.59)]), ("Orbitrap", [("RTO-24", 36.22)]),
        ("TOF", [("RTO-24", 27.60)])] ∧
    lastCost EXAMPLE_RESPONSE "TOF" "RTO-24" = some 27.60 ∧
    lastCost EXAMPLE_RESPONSE "Orbitrap" "RTO-24" = some 36.22 ∧
    lastCost EXAMPLE_RESPONSE "IonTrap" "RTO-24" = some 32.59 :=
  ⟨rfl, rfl,
    (getEstimatedCosts_groups (InitAction.mk true EXAMPLE_RESPONSE []) rfl rfl).imp
      (fun _ h => ⟨h.1, h.2.2.1⟩),
    by decide!, by decide!, by decide!, by decide!⟩

end PeakInvestigator
